import Mathlib

/-!
# Data-Cleaning-and-Sorting-Bot: verification of the core cleaning engine

The repository ships a browser frontend (`frontend/app.js`, plus an earlier
v0.4 variant of the same file) and documentation; the FastAPI/pandas backend
(`main.py`: session store, dirty scorer, cleaning pipeline) is not part of the
checked-in sources.  Backend behaviour is therefore modelled from the
specification, faithfully following its wording; frontend behaviour is
embedded directly from the JavaScript sources.

Strings inside table cells are modelled as `List Char`; rational numbers
stand for the numeric values.
-/

namespace CleanBot

/-! ## Character and string helpers -/

/-- The ASCII uppercase/lowercase letter pairs. -/
def upperLowerPairs : List (Char × Char) :=
  [('A', 'a'), ('B', 'b'), ('C', 'c'), ('D', 'd'), ('E', 'e'), ('F', 'f'),
   ('G', 'g'), ('H', 'h'), ('I', 'i'), ('J', 'j'), ('K', 'k'), ('L', 'l'),
   ('M', 'm'), ('N', 'n'), ('O', 'o'), ('P', 'p'), ('Q', 'q'), ('R', 'r'),
   ('S', 's'), ('T', 't'), ('U', 'u'), ('V', 'v'), ('W', 'w'), ('X', 'x'),
   ('Y', 'y'), ('Z', 'z')]

/-- Modelled from the spec: ASCII lower-casing used by the `text_clean`
stage ("for `lower` columns, lowercase all string values"). -/
def charToLower (c : Char) : Char :=
  match upperLowerPairs.find? (fun p => decide (p.1 = c)) with
  | some p => p.2
  | Option.none => c

/-- Drop trailing whitespace characters from a character list. -/
def dropTrailWs (l : List Char) : List Char :=
  l.foldr (fun c acc => if acc = [] ∧ c.isWhitespace then [] else c :: acc) []

/-- Modelled from the spec: trimming of leading and trailing whitespace,
used both by the dirty scorer (blank cells count as missing) and by the
`strip` text-cleaning operation. -/
def trimChars (l : List Char) : List Char :=
  dropTrailWs (l.dropWhile Char.isWhitespace)

/-- Characters that may occur in a numeric literal. -/
def isNumChar (c : Char) : Bool :=
  c.isDigit || c = '-' || c = '.'

/-- Value of a digit string. -/
def digitsVal (l : List Char) : Nat :=
  l.foldl (fun a c => a * 10 + (c.toNat - 48)) 0

/-- Modelled from the spec: integer parsing used by `apply_dtypes` coercion
(optional sign followed by digits; surrounding whitespace is trimmed by the
caller). -/
def parseIntQ (l : List Char) : Option ℚ :=
  match l with
  | '-' :: r => if r ≠ [] ∧ r.all Char.isDigit then some (-(digitsVal r : ℚ)) else Option.none
  | _ => if l ≠ [] ∧ l.all Char.isDigit then some ((digitsVal l : ℚ)) else Option.none

/-- Unsigned decimal parsing: digits with an optional fractional part. -/
def parseUnsignedQ (l : List Char) : Option ℚ :=
  let ip := l.takeWhile Char.isDigit
  let rest := l.dropWhile Char.isDigit
  if ip = [] then Option.none
  else
    match rest with
    | [] => some ((digitsVal ip : ℚ))
    | '.' :: fr =>
        if fr ≠ [] ∧ fr.all Char.isDigit then
          some ((digitsVal ip : ℚ) + (digitsVal fr : ℚ) / (10 ^ fr.length : ℚ))
        else Option.none
    | _ => Option.none

/-- Modelled from the spec: decimal parsing used by `apply_dtypes` coercion
to float. -/
def parseFloatQ (l : List Char) : Option ℚ :=
  match l with
  | '-' :: r => (parseUnsignedQ r).map (fun q => -q)
  | _ => parseUnsignedQ l

/-! ## Cells and tables -/

/-- A table cell: a true missing marker, a string, or a numeric value. -/
inductive Cell
  | null : Cell
  | str : List Char → Cell
  | num : ℚ → Cell
deriving DecidableEq

/-- Modelled from the spec: a cell counts as missing if it is a true missing
marker or a string that is empty/whitespace-only after trimming (the dual
criterion of §4.2 step 2). -/
def isMissingCell : Cell → Bool
  | Cell.null => true
  | Cell.str s => trimChars s = []
  | Cell.num _ => false

/-- A row is a list of cells; rows are ordered. -/
abbrev Row := List Cell

/-- Column names. -/
abbrev ColName := String

/-- Modelled from the spec: an in-memory 2-D table with named columns and
ordered rows. -/
structure Table where
  header : List ColName
  rows : List Row
deriving DecidableEq

/-! ## Dirty scorer -/

/-- Severity tiers of a dirty assessment. -/
inductive Severity
  | CLEAN | GOOD | WARNING | CRITICAL
deriving DecidableEq

/-- Modelled from the spec: low severity threshold (named constant, reference
boundary 5). -/
def LOW_THRESHOLD : ℚ := 5

/-- Modelled from the spec: mid severity threshold (named constant, reference
boundary 20). -/
def MID_THRESHOLD : ℚ := 20

/-- Modelled from the spec §4.2 step 5: severity from score via the named
threshold constants. -/
def severityOf (score : ℚ) : Severity :=
  if score = 0 then Severity.CLEAN
  else if score ≤ LOW_THRESHOLD then Severity.GOOD
  else if score ≤ MID_THRESHOLD then Severity.WARNING
  else Severity.CRITICAL

/-- Clamp a rational to the interval [0, 100]. -/
def clamp01 (q : ℚ) : ℚ := if q < 0 then 0 else if 100 < q then 100 else q

/-- Number of cells of a row that count as missing, measured over the header
width (short rows count their absent cells as missing). -/
def rowMissingCount (width : Nat) (r : Row) : Nat :=
  (List.range width).countP (fun j => isMissingCell (r.getD j Cell.null))

/-- Count of rows that are exact duplicates of an earlier row (first
occurrence not counted), via an accumulator of already-seen rows. -/
def dupCountAux : List Row → List Row → Nat
  | _, [] => 0
  | seen, r :: rest => (if r ∈ seen then 1 else 0) + dupCountAux (r :: seen) rest

/-- Modelled from the spec §4.2 step 3: duplicate-row count. -/
def dupCount (rows : List Row) : Nat := dupCountAux [] rows

/-- Result of the dirty scorer. -/
structure DirtyAssessment where
  score : ℚ
  severity : Severity
  missing_cells : Nat
  duplicate_rows : Nat
  total_cells : Nat
deriving DecidableEq

/-- Modelled from the spec §4.2: `assess(table) -> DirtyAssessment`.
`total_cells = rows * columns`; score `100 * (missing + duplicates) / total`
clamped to [0,100]; an empty table (0 rows or 0 columns) is defined as score
0 and severity CLEAN, and the division is guarded so it is never performed
with a zero denominator. -/
def assess (t : Table) : DirtyAssessment :=
  let width := t.header.length
  let total := t.rows.length * width
  let missing := (t.rows.map (rowMissingCount width)).sum
  let dups := dupCount t.rows
  let score : ℚ :=
    if total = 0 then 0
    else clamp01 (100 * ((missing : ℚ) + (dups : ℚ)) / (total : ℚ))
  { score := score
    severity := severityOf score
    missing_cells := missing
    duplicate_rows := dups
    total_cells := total }

/-! ## Cleaning configuration -/

/-- Modelled from the spec: target types for `apply_dtypes` coercion (the
spec leaves the type vocabulary open; the numeric targets int and float are
the ones the cleaning pipeline needs). -/
inductive TargetType
  | int | float
deriving DecidableEq

/-- Fill strategies for missing values. -/
inductive Strategy
  | mean | median | mode | constant
deriving DecidableEq

/-- One fill directive of the `missing` config section. -/
structure FillDirective where
  column : ColName
  strategy : Strategy
  value : Option Cell
deriving DecidableEq

/-- The `missing` section of a cleaning config. -/
structure MissingCfg where
  dropIfMissing : List ColName
  fill : List FillDirective
deriving DecidableEq

/-- The `text_clean` section of a cleaning config.  The
`remove_chars_pattern` regex is modelled as the set of characters it
removes. -/
structure TextCleanCfg where
  lower : List ColName
  strip : List ColName
  removeChars : Option (List Char)
deriving DecidableEq

/-- Keep policy of `drop_duplicates`. -/
inductive Keep
  | first | last | none
deriving DecidableEq

/-- The `duplicates` section of a cleaning config. -/
structure DupCfg where
  subset : Option (List ColName)
  keep : Keep
deriving DecidableEq

/-- The `outliers` section of a cleaning config. -/
structure OutlierCfg where
  columns : List ColName
  zThreshold : ℚ
deriving DecidableEq

/-- The `sort` section of a cleaning config: columns with aligned
directions. -/
structure SortCfg where
  sortBy : List ColName
  ascending : List Bool
deriving DecidableEq

/-- The optional `split` section of a cleaning config. -/
structure SplitCfg where
  train : ℚ
  validation : ℚ
  test : ℚ
  seed : Nat
deriving DecidableEq

/-- Modelled from the spec §3: the validated cleaning configuration. -/
structure CleaningConfig where
  dtypes : List (ColName × TargetType)
  missing : MissingCfg
  textClean : TextCleanCfg
  duplicates : DupCfg
  outliers : OutlierCfg
  sort : SortCfg
  split : Option SplitCfg
deriving DecidableEq

/-! ## Column access helpers -/

/-- Index of a column name in a header (first occurrence). -/
def colIdx : List ColName → ColName → Option Nat
  | [], _ => Option.none
  | x :: xs, c => if x = c then some 0 else (colIdx xs c).map (· + 1)

/-- Cell of a row at a named column; `null` when the column does not exist
or the row is too short. -/
def cellAt (h : List ColName) (r : Row) (c : ColName) : Cell :=
  match colIdx h c with
  | some j => r.getD j Cell.null
  | Option.none => Cell.null

/-- Whether a row counts as missing at a named column; nonexistent columns
are silently skipped (spec §3: malformed columns degrade gracefully). -/
def rowMissingAt (h : List ColName) (r : Row) (c : ColName) : Bool :=
  match colIdx h c with
  | some j => isMissingCell (r.getD j Cell.null)
  | Option.none => false

/-- Replace the cell at index `j` by `g` of the current cell. -/
def updateRowAt (j : Nat) (g : Cell → Cell) (r : Row) : Row :=
  r.set j (g (r.getD j Cell.null))

/-- Apply a cell transformation to one named column of every row;
nonexistent columns are silently skipped. -/
def updateCol (h : List ColName) (c : ColName) (g : Cell → Cell)
    (rows : List Row) : List Row :=
  match colIdx h c with
  | some j => rows.map (updateRowAt j g)
  | Option.none => rows

/-! ## Stage 1: apply_dtypes -/

/-- Modelled from the spec §4.3 stage 1: coerce a cell to a target type; on
coercion failure the original value is left in place (the per-column issue
record is represented by the unchanged cell; the stage never aborts).
Numeric cells are already typed and are left unchanged; parsing trims
surrounding whitespace first. -/
def coerceCell (ty : TargetType) : Cell → Cell
  | Cell.null => Cell.null
  | Cell.num q => Cell.num q
  | Cell.str s =>
    match ty with
    | TargetType.int =>
        match parseIntQ (trimChars s) with
        | some q => Cell.num q
        | Option.none => Cell.str s
    | TargetType.float =>
        match parseFloatQ (trimChars s) with
        | some q => Cell.num q
        | Option.none => Cell.str s

/-- Modelled from the spec §4.3 stage 1: `apply_dtypes` coerces the named
columns to their target types.  It produces no ChangeLogEntry (the example
reports list no dtype entries; failures are per-column issues, not
mutations). -/
def applyDtypes (dts : List (ColName × TargetType)) (h : List ColName)
    (rows : List Row) : List Row :=
  dts.foldl (fun rs p => updateCol h p.1 (coerceCell p.2) rs) rows

/-! ## Stage 2: handle_missing -/

/-- Numeric values of a list of cells. -/
def numericVals (l : List Cell) : List ℚ :=
  l.filterMap (fun c => match c with | Cell.num q => some q | _ => Option.none)

/-- Boolean order on rationals, for sorting. -/
def qLeB (a b : ℚ) : Bool := decide (a ≤ b)

/-- Stable insertion of an element into a list, in front of the first
element it is `le` to. -/
def insertLe {α : Type} (le : α → α → Bool) (x : α) : List α → List α
  | [] => [x]
  | y :: ys => if le x y then x :: y :: ys else y :: insertLe le x ys

/-- Stable insertion sort. -/
def insSort {α : Type} (le : α → α → Bool) (l : List α) : List α :=
  l.foldr (insertLe le) []

/-- Median of an already-sorted list of rationals (mean of the two middle
elements for an even length, as pandas computes it). -/
def medianOfSorted (vs : List ℚ) : ℚ :=
  let n := vs.length
  if n % 2 = 1 then vs.getD (n / 2) 0
  else (vs.getD (n / 2 - 1) 0 + vs.getD (n / 2) 0) / 2

/-- Most frequent element, ties broken by first occurrence: fold keeping the
current best unless a strictly more frequent candidate appears. -/
def modeBest (all : List Cell) : Cell → List Cell → Cell
  | best, [] => best
  | best, c :: rest =>
      modeBest all (if all.count c > all.count best then c else best) rest

/-- Modelled from the spec §4.3 stage 2: mode as the most frequent
non-missing value with ties broken by first encounter. -/
def modeOf : List Cell → Option Cell
  | [] => Option.none
  | x :: xs => some (modeBest (x :: xs) x xs)

/-- Modelled from the spec §4.3 stage 2: the fill value of a directive,
computed from the current column state; mean/median use the non-missing
numeric values, mode uses the most frequent non-missing value, constant
uses the given value.  A non-numeric column (one with no numeric values)
falls back to mode/constant even if mean/median was requested: to the
given constant when the directive supplies one, otherwise to the mode. -/
def fillValue (d : FillDirective) (colVals : List Cell) : Option Cell :=
  match d.strategy with
  | Strategy.mean =>
      match numericVals colVals with
      | [] =>
          match d.value with
          | some v => some v
          | Option.none => modeOf (colVals.filter (fun c => !(isMissingCell c)))
      | vs => some (Cell.num (vs.sum / (vs.length : ℚ)))
  | Strategy.median =>
      match insSort qLeB (numericVals colVals) with
      | [] =>
          match d.value with
          | some v => some v
          | Option.none => modeOf (colVals.filter (fun c => !(isMissingCell c)))
      | vs => some (Cell.num (medianOfSorted vs))
  | Strategy.mode => modeOf (colVals.filter (fun c => !(isMissingCell c)))
  | Strategy.constant => d.value

/-- Apply one fill directive: compute the fill value from the current column
and fill every missing cell of that column with it.  A ChangeLogEntry is
produced exactly when the rows changed. -/
def fillOne (h : List ColName) (d : FillDirective) (rows : List Row) :
    List Row × List String :=
  match colIdx h d.column with
  | Option.none => (rows, [])
  | some j =>
    match fillValue d (rows.map (fun r => r.getD j Cell.null)) with
    | Option.none => (rows, [])
    | some v =>
      let rows' := rows.map
        (fun r => if isMissingCell (r.getD j Cell.null) then r.set j v else r)
      (rows', if rows' = rows then []
        else ["Filled missing values in column " ++ d.column])

/-- Apply the fill directives in order. -/
def applyFills (h : List ColName) : List FillDirective → List Row →
    List Row × List String
  | [], rows => (rows, [])
  | d :: ds, rows =>
    let p1 := fillOne h d rows
    let p2 := applyFills h ds p1.1
    (p2.1, p1.2 ++ p2.2)

/-- Modelled from the spec §4.3 stage 2: `handle_missing` first drops rows
missing any value in the `drop_if_missing` columns, then applies the fill
directives. -/
def handleMissing (cfg : MissingCfg) (h : List ColName) (rows : List Row) :
    List Row × List String :=
  let kept := rows.filter (fun r => !(cfg.dropIfMissing.any (rowMissingAt h r)))
  let e1 : List String :=
    if kept = rows then [] else ["Dropped rows with missing values"]
  let p := applyFills h cfg.fill kept
  (p.1, e1 ++ p.2)

/-! ## Stage 3: text_clean -/

/-- Lowercase a string cell. -/
def cellLower : Cell → Cell
  | Cell.str s => Cell.str (s.map charToLower)
  | c => c

/-- Trim a string cell. -/
def cellStrip : Cell → Cell
  | Cell.str s => Cell.str (trimChars s)
  | c => c

/-- Remove the pattern characters from a string cell. -/
def cellRemove (pat : List Char) : Cell → Cell
  | Cell.str s => Cell.str (s.filter (fun c => !(pat.contains c)))
  | c => c

/-- Apply a cell transformation to a list of columns, one entry per column
that actually changed. -/
def textOpFold (h : List ColName) (g : Cell → Cell) (msg : String) :
    List ColName → List Row → List Row × List String
  | [], rows => (rows, [])
  | c :: cs, rows =>
    let r1 := updateCol h c g rows
    let e1 : List String := if r1 = rows then [] else [msg ++ c]
    let p := textOpFold h g msg cs r1
    (p.1, e1 ++ p.2)

/-- Modelled from the spec §4.3 stage 3: `text_clean` lowercases the `lower`
columns, trims the `strip` columns, and if `remove_chars_pattern` is given
removes its characters from every column touched by lower/strip. -/
def textClean (cfg : TextCleanCfg) (h : List ColName) (rows : List Row) :
    List Row × List String :=
  let p1 := textOpFold h cellLower "Lowercased text in column " cfg.lower rows
  let p2 := textOpFold h cellStrip "Stripped whitespace in column " cfg.strip p1.1
  match cfg.removeChars with
  | Option.none => (p2.1, p1.2 ++ p2.2)
  | some pat =>
    let p3 := textOpFold h (cellRemove pat) "Removed pattern characters in column "
      (cfg.lower ++ cfg.strip) p2.1
    (p3.1, p1.2 ++ p2.2 ++ p3.2)

/-! ## Stage 4: drop_duplicates -/

/-- Duplicate key of a row: the whole row, or its projection to the subset
columns. -/
def rowKey (cfg : DupCfg) (h : List ColName) (r : Row) : List Cell :=
  match cfg.subset with
  | Option.none => r
  | some cols => cols.map (cellAt h r)

/-- Keep the earliest occurrence of every key. -/
def ddFirst (key : Row → List Cell) : List (List Cell) → List Row → List Row
  | _, [] => []
  | seen, r :: rest =>
    if key r ∈ seen then ddFirst key seen rest
    else r :: ddFirst key (key r :: seen) rest

/-- Keep the latest occurrence of every key (in original order). -/
def ddLast (key : Row → List Cell) : List Row → List Row
  | [] => []
  | r :: rest =>
    if rest.any (fun r2 => decide (key r2 = key r)) then ddLast key rest
    else r :: ddLast key rest

/-- Remove every occurrence of any duplicated key. -/
def ddNone (key : Row → List Cell) (rows : List Row) : List Row :=
  rows.filter (fun r => decide (rows.countP (fun r2 => decide (key r2 = key r)) = 1))

/-- Modelled from the spec §4.3 stage 4: `drop_duplicates` by the configured
column subset (all columns if unspecified) under the keep policy. -/
def dropDuplicates (cfg : DupCfg) (h : List ColName) (rows : List Row) :
    List Row × List String :=
  let key := rowKey cfg h
  let rows' :=
    match cfg.keep with
    | Keep.first => ddFirst key [] rows
    | Keep.last => ddLast key rows
    | Keep.none => ddNone key rows
  (rows', if rows' = rows then [] else ["Removed duplicate rows"])

/-! ## Stage 5: handle_outliers -/

/-- Modelled from the spec §4.3 stage 5: whether a row is an outlier in a
named column of the given table: it holds a numeric value `x` there and
`|x - mean| / stddev > threshold` over the column's numeric values, i.e.
`(x - mean)^2 > threshold^2 * variance` (population variance); columns with
zero variance are skipped. -/
def outlierAt (h : List ColName) (rows : List Row) (t : ℚ) (c : ColName)
    (r : Row) : Bool :=
  match colIdx h c with
  | Option.none => false
  | some j =>
    match r.getD j Cell.null with
    | Cell.num x =>
      let vals := numericVals (rows.map (fun rr => rr.getD j Cell.null))
      let n := vals.length
      if n = 0 then false
      else
        let mu := vals.sum / (n : ℚ)
        let varp := (vals.map (fun v => (v - mu) ^ 2)).sum / (n : ℚ)
        if varp = 0 then false
        else decide ((x - mu) ^ 2 > t ^ 2 * varp)
    | _ => false

/-- Modelled from the spec §4.3 stage 5: remove rows that are outliers in
any configured column (union across columns, computed on the stage input). -/
def handleOutliers (cfg : OutlierCfg) (h : List ColName) (rows : List Row) :
    List Row × List String :=
  let rows' := rows.filter
    (fun r => !(cfg.columns.any (fun c => outlierAt h rows cfg.zThreshold c r)))
  (rows', if rows' = rows then [] else ["Removed outlier rows"])

/-! ## Stage 6: sort -/

/-- Order on naturals as a three-way comparison. -/
def natCmp (a b : Nat) : Ordering :=
  if a < b then Ordering.lt else if b < a then Ordering.gt else Ordering.eq

/-- Order on rationals as a three-way comparison. -/
def qCmp (a b : ℚ) : Ordering :=
  if a < b then Ordering.lt else if b < a then Ordering.gt else Ordering.eq

/-- Lexicographic comparison of lists. -/
def listCmp {α : Type} (cmp : α → α → Ordering) : List α → List α → Ordering
  | [], [] => Ordering.eq
  | [], _ :: _ => Ordering.lt
  | _ :: _, [] => Ordering.gt
  | a :: as, b :: bs =>
    match cmp a b with
    | Ordering.eq => listCmp cmp as bs
    | o => o

/-- Rank of a cell constructor, for cross-type comparisons. -/
def cellRank : Cell → Nat
  | Cell.null => 0
  | Cell.num _ => 1
  | Cell.str _ => 2

/-- Total comparison of cells: missing markers sort before numbers before
strings; numbers by value, strings lexicographically by character code. -/
def cellCmp : Cell → Cell → Ordering
  | Cell.null, Cell.null => Ordering.eq
  | Cell.num x, Cell.num y => qCmp x y
  | Cell.str x, Cell.str y => listCmp (fun a b => natCmp a.toNat b.toNat) x y
  | a, b => natCmp (cellRank a) (cellRank b)

/-- Sort keys with directions: the `ascending` sequence is aligned with the
`by` sequence, absent directions default to ascending. -/
def zipDirections : List ColName → List Bool → List (ColName × Bool)
  | [], _ => []
  | c :: cs, [] => (c, true) :: zipDirections cs []
  | c :: cs, b :: bs => (c, b) :: zipDirections cs bs

/-- Multi-key lexicographic comparison of rows, each key with its own
direction. -/
def rowCmp (h : List ColName) : List (ColName × Bool) → Row → Row → Ordering
  | [], _, _ => Ordering.eq
  | k :: rest, r1, r2 =>
    match (if k.2 then cellCmp (cellAt h r1 k.1) (cellAt h r2 k.1)
           else (cellCmp (cellAt h r1 k.1) (cellAt h r2 k.1)).swap) with
    | Ordering.eq => rowCmp h rest r1 r2
    | o => o

/-- Non-strict row order induced by `rowCmp`. -/
def rowLe (h : List ColName) (keys : List (ColName × Bool)) (r1 r2 : Row) :
    Bool :=
  match rowCmp h keys r1 r2 with
  | Ordering.gt => false
  | _ => true

/-- Modelled from the spec §4.3 stage 6: stable multi-key sort by the given
column sequence with per-key directions (stable insertion sort). -/
def sortStage (cfg : SortCfg) (h : List ColName) (rows : List Row) :
    List Row × List String :=
  if cfg.sortBy = [] then (rows, [])
  else
    let keys := zipDirections cfg.sortBy cfg.ascending
    let sorted := insSort (rowLe h keys) rows
    (sorted, if sorted = rows then [] else ["Sorted rows"])

/-! ## Stage 7: split -/

/-- Modelled from the spec §4.3 stage 7: optional train/validation/test
split as a pure row-count partition by the given fractions (the deterministic
seed-indexed shuffle is the identity permutation here); the partitions are
returned concatenated in order, so the row list is unchanged, and the
performed split is logged. -/
def splitStage (osc : Option SplitCfg) (rows : List Row) :
    List Row × List String :=
  match osc with
  | Option.none => (rows, [])
  | some s =>
    let n := rows.length
    let nTrain := (s.train * (n : ℚ)).floor.toNat
    let nVal := (s.validation * (n : ℚ)).floor.toNat
    (rows.take nTrain ++ (rows.drop nTrain).take nVal ++ rows.drop (nTrain + nVal),
     ["Split rows into train, validation and test partitions"])

/-! ## Pipeline orchestrator -/

/-- Result of one pipeline run on one table. -/
structure CleaningResult where
  cleaned : Table
  before : DirtyAssessment
  after : DirtyAssessment
  changes : List String
  remaining_issues : List String
deriving DecidableEq

/-- Modelled from the spec §4.3/§4.4: the seven stages in their fixed order,
accumulating change-log entries. -/
def runStages (C : CleaningConfig) (h : List ColName) (rows : List Row) :
    List Row × List String :=
  let r1 := applyDtypes C.dtypes h rows
  let p2 := handleMissing C.missing h r1
  let p3 := textClean C.textClean h p2.1
  let p4 := dropDuplicates C.duplicates h p3.1
  let p5 := handleOutliers C.outliers h p4.1
  let p6 := sortStage C.sort h p5.1
  let p7 := splitStage C.split p6.1
  (p7.1, p2.2 ++ p3.2 ++ p4.2 ++ p5.2 ++ p6.2 ++ p7.2)

/-- Modelled from the spec §4.4: assess, run the stages in fixed order,
re-assess, and render the remaining issues (`["(none)"]` when the after
score is 0). -/
def runPipeline (C : CleaningConfig) (t : Table) : CleaningResult :=
  let before := assess t
  let p := runStages C t.header t.rows
  let cleaned : Table := { header := t.header, rows := p.1 }
  let after := assess cleaned
  { cleaned := cleaned
    before := before
    after := after
    changes := p.2
    remaining_issues :=
      if after.score = 0 then ["(none)"]
      else [toString after.missing_cells ++ " missing cells and " ++
            toString after.duplicate_rows ++ " duplicate rows remain"] }

/-! ## Invariants of cleaned tables

These predicates describe the state of a table after a pipeline run; they
are what makes a second run a no-op. -/

/-- Every cell of a dtype-configured column is a fixed point of its
coercion. -/
def FixedCols (dts : List (ColName × TargetType)) (h : List ColName)
    (rows : List Row) : Prop :=
  ∀ p ∈ dts, ∀ j, colIdx h p.1 = some j →
    ∀ r ∈ rows, coerceCell p.2 (r.getD j Cell.null) = r.getD j Cell.null

/-- No row is missing at any drop-if-missing column. -/
def DropClean (cols : List ColName) (h : List ColName) (rows : List Row) : Prop :=
  ∀ r ∈ rows, ∀ c ∈ cols, rowMissingAt h r c = false

/-- No row long enough to hold column `j` is missing there. -/
def NoLongMissingAt (j : Nat) (rows : List Row) : Prop :=
  ∀ r ∈ rows, j < r.length → isMissingCell (r.getD j Cell.null) = false

/-- Column `j` holds no numeric cell. -/
def NoNumAt (j : Nat) (rows : List Row) : Prop :=
  ∀ r ∈ rows, ∀ q : ℚ, r.getD j Cell.null ≠ Cell.num q

/-- Column `j` is missing in every row. -/
def AllMissingAt (j : Nat) (rows : List Row) : Prop :=
  ∀ r ∈ rows, isMissingCell (r.getD j Cell.null) = true

/-- A fill directive has nothing to do at column `j`: either no (reachable)
missing cell remains, or the fill value cannot be computed — for mean and
median that the column is all-missing with no constant to fall back to,
for mode that the column is all-missing, for constant that the directive
carries no value — and the directive is skipped. -/
def FillSkip (d : FillDirective) (j : Nat) (rows : List Row) : Prop :=
  NoLongMissingAt j rows ∨
  ((d.strategy = Strategy.mean ∨ d.strategy = Strategy.median) ∧
    d.value = Option.none ∧ AllMissingAt j rows) ∨
  (d.strategy = Strategy.mode ∧ AllMissingAt j rows) ∨
  (d.strategy = Strategy.constant ∧ d.value = Option.none)

/-- A fill directive has nothing to do on its column (if that column
exists). -/
def FillCleanCol (h : List ColName) (d : FillDirective) (rows : List Row) : Prop :=
  ∀ j, colIdx h d.column = some j → FillSkip d j rows

/-- Every cell of a lower-configured column is already lowercase. -/
def LowerFixedCols (cols : List ColName) (h : List ColName) (rows : List Row) : Prop :=
  ∀ c ∈ cols, ∀ j, colIdx h c = some j →
    ∀ r ∈ rows, cellLower (r.getD j Cell.null) = r.getD j Cell.null

/-- Every cell of a strip-configured column is already trimmed. -/
def StripFixedCols (cols : List ColName) (h : List ColName) (rows : List Row) : Prop :=
  ∀ c ∈ cols, ∀ j, colIdx h c = some j →
    ∀ r ∈ rows, cellStrip (r.getD j Cell.null) = r.getD j Cell.null

/-- No two rows share a duplicate key. -/
def KeyDistinct (cfg : DupCfg) (h : List ColName) (rows : List Row) : Prop :=
  List.Pairwise (fun r1 r2 => rowKey cfg h r1 ≠ rowKey cfg h r2) rows

/-- The rows are sorted per the sort config (trivially so when no sort is
requested). -/
def SortedRows (cfg : SortCfg) (h : List ColName) (rows : List Row) : Prop :=
  cfg.sortBy = [] ∨
    List.Chain'
      (fun a b => rowLe h (zipDirections cfg.sortBy cfg.ascending) a b = true) rows

/-- The conjunction of all post-run invariants. -/
def PipelineInv (C : CleaningConfig) (h : List ColName) (rows : List Row) : Prop :=
  FixedCols C.dtypes h rows ∧
  DropClean C.missing.dropIfMissing h rows ∧
  (∀ d ∈ C.missing.fill, FillCleanCol h d rows) ∧
  LowerFixedCols C.textClean.lower h rows ∧
  StripFixedCols C.textClean.strip h rows ∧
  KeyDistinct C.duplicates h rows ∧
  SortedRows C.sort h rows

/-! ## Session store and run_cleaning endpoint -/

/-- Modelled from the spec §4.1: the session store is a process-wide mapping
from opaque session ids to the uploaded tables (filename to table). -/
abbrev SessionStore := List (String × List (String × Table))

/-- Lookup of a session id. -/
def storeGet : SessionStore → String → Option (List (String × Table))
  | [], _ => Option.none
  | e :: rest, sid => if e.1 = sid then some e.2 else storeGet rest sid

/-- Removal of a session id. -/
def storeErase : SessionStore → String → SessionStore
  | [], _ => []
  | e :: rest, sid =>
    if e.1 = sid then storeErase rest sid else e :: storeErase rest sid

/-- A raw (unvalidated) fill directive, with the strategy as the string the
client sent. -/
structure RawFill where
  column : ColName
  strategy : String
  value : Option Cell
deriving DecidableEq

/-- The raw configuration received by `run_cleaning` before validation. -/
structure RawConfig where
  dtypes : List (ColName × TargetType)
  dropIfMissing : List ColName
  fills : List RawFill
  textClean : TextCleanCfg
  duplicatesSubset : Option (List ColName)
  keep : String
  outliers : OutlierCfg
  sort : SortCfg
  split : Option SplitCfg
deriving DecidableEq

/-- A field-level configuration error. -/
structure ConfigError where
  field : String
  detail : String
deriving DecidableEq

/-- Supported fill strategy names. -/
def parseStrategy : String → Option Strategy
  | "mean" => some Strategy.mean
  | "median" => some Strategy.median
  | "mode" => some Strategy.mode
  | "constant" => some Strategy.constant
  | _ => Option.none

/-- Supported duplicate keep policies. -/
def parseKeep : String → Option Keep
  | "first" => some Keep.first
  | "last" => some Keep.last
  | "none" => some Keep.none
  | _ => Option.none

/-- Validate the fill directives; the first unsupported strategy name is
reported as an error naming the offending field. -/
def validateFills : List RawFill → Except ConfigError (List FillDirective)
  | [] => Except.ok []
  | f :: rest =>
    match parseStrategy f.strategy with
    | Option.none =>
        Except.error
          { field := "missing.fill." ++ f.column ++ ".strategy"
            detail := "unsupported strategy " ++ f.strategy }
    | some st =>
        match validateFills rest with
        | Except.error e => Except.error e
        | Except.ok ds =>
            Except.ok ({ column := f.column, strategy := st, value := f.value } :: ds)

/-- Modelled from the spec §7(b) and design note on typed config parsing:
shape-validate a raw config into a `CleaningConfig`, or report the first
field-level error. -/
def validateConfig (rc : RawConfig) : Except ConfigError CleaningConfig :=
  match validateFills rc.fills with
  | Except.error e => Except.error e
  | Except.ok ds =>
    match parseKeep rc.keep with
    | Option.none =>
        Except.error
          { field := "duplicates.keep"
            detail := "unsupported keep policy " ++ rc.keep }
    | some k =>
        Except.ok
          { dtypes := rc.dtypes
            missing := { dropIfMissing := rc.dropIfMissing, fill := ds }
            textClean := rc.textClean
            duplicates := { subset := rc.duplicatesSubset, keep := k }
            outliers := rc.outliers
            sort := rc.sort
            split := rc.split }

/-- An HTTP error response. -/
structure ErrResponse where
  code : Nat
  detail : String
deriving DecidableEq

/-- The JSON body of a `run_cleaning` request. -/
structure RunRequest where
  session_id : String
  config : RawConfig
  override_warnings : Bool
deriving DecidableEq

/-- Modelled from the spec §6 `POST /run_cleaning`: look the session up
(unknown id gives a 404 with a detail), shape-validate the config before any
stage runs (validation failure gives a 4xx naming the offending field),
refuse with a 4xx when the pre-run assessment of some file is CRITICAL and
`override_warnings` is not set, otherwise run the pipeline per file and
destroy the session.  Returns the response together with the updated
store. -/
def runCleaningEndpoint (store : SessionStore) (req : RunRequest) :
    Except ErrResponse (List (String × CleaningResult)) × SessionStore :=
  match storeGet store req.session_id with
  | Option.none => (Except.error { code := 404, detail := "Unknown session_id" }, store)
  | some tables =>
    match validateConfig req.config with
    | Except.error e =>
        (Except.error
          { code := 422
            detail := "Invalid config field " ++ e.field ++ ": " ++ e.detail },
         store)
    | Except.ok cfg =>
      if tables.any (fun ft => decide ((assess ft.2).severity = Severity.CRITICAL))
          && !req.override_warnings then
        (Except.error
          { code := 400
            detail := "Dataset severity is CRITICAL; set override_warnings to proceed" },
         store)
      else
        (Except.ok (tables.map (fun ft => (ft.1, runPipeline cfg ft.2))),
         storeErase store req.session_id)

/-! ## Frontend embeddings

The run-button click handlers of the three frontend variants, embedded from
`frontend/app.js` (the v0.5 handler and its second variant) and from the
v0.4 `app.js` in the unnamed sources.  JSON parsing is abstracted as a
function from the textarea text to an optional parsed config; an outcome is
either a status message with no HTTP request issued, or the POSTed request
body. -/

/-- JavaScript `String.prototype.trim`, over the character data of a Lean
string. -/
def jsTrim (s : String) : String := { data := trimChars s.data }

/-- Outcome of a run-button click: either only a status message is set (no
HTTP request is issued), or a `run_cleaning` POST is sent with the given
body fields (`config = Option.none` stands for the empty default config
object, `overrideWarnings = Option.none` for an absent field). -/
inductive ClickOutcome (α : Type)
  | statusOnly (msg : String)
  | httpPost (sessionId : String) (config : Option α) (overrideWarnings : Option Bool)
deriving DecidableEq

/-- Embedded from `frontend/app.js` (v0.5 handler, lines 218-270): guard on a
null session, trim the config textarea, parse it as JSON when non-empty and
report "Invalid JSON config." without any request on failure, otherwise POST
with `override_warnings: true`. -/
def runClickV05 (α : Type) (sid : Option String) (configText : String)
    (parse : String → Option α) : ClickOutcome α :=
  match sid with
  | Option.none => ClickOutcome.statusOnly "Upload files first."
  | some s =>
    let t := jsTrim configText
    if t = "" then ClickOutcome.httpPost s Option.none (some true)
    else
      match parse t with
      | Option.none => ClickOutcome.statusOnly "Invalid JSON config."
      | some c => ClickOutcome.httpPost s (some c) (some true)

/-- Embedded from `frontend/app.js` (second variant, lines 480-521): guard on
a null session, then POST only the session id (no config, no
override_warnings field). -/
def runClickV05b (α : Type) (sid : Option String) : ClickOutcome α :=
  match sid with
  | Option.none => ClickOutcome.statusOnly "Upload files first."
  | some s => ClickOutcome.httpPost s Option.none Option.none

/-- Embedded from the v0.4 `app.js` (unnamed part_000, lines 161-218): guard
on a null session, parse the config textarea (defaulting to the literal
empty-object text when empty), report "Invalid JSON format in config area."
without any request on failure, otherwise POST without an
override_warnings field. -/
def runClickV04 (α : Type) (sid : Option String) (configText : String)
    (parse : String → Option α) : ClickOutcome α :=
  match sid with
  | Option.none => ClickOutcome.statusOnly "Please upload a file first."
  | some s =>
    match parse (if configText = "" then "\x7b\x7d" else configText) with
    | Option.none => ClickOutcome.statusOnly "Invalid JSON format in config area."
    | some c => ClickOutcome.httpPost s (some c) Option.none

/-- Client-side state relevant to session handling. -/
structure ClientState (α : Type) where
  sessionId : Option String
  originalConfig : Option α
  configArea : String
  uploadStatus : String
  runStatus : String
  dirtyScoreText : String
  dirtyMsgHidden : Bool
deriving DecidableEq

/-- Embedded from the v0.4 `app.js` `resetUI` (unnamed part_000, lines
64-76): clears the config area, hides the dirty warning, clears the texts
and nulls the stored session id and original config. -/
def resetUI (α : Type) (s : ClientState α) : ClientState α :=
  { s with
    configArea := ""
    dirtyMsgHidden := true
    dirtyScoreText := ""
    uploadStatus := ""
    runStatus := ""
    sessionId := Option.none
    originalConfig := Option.none }

/-- Embedded from the v0.4 `app.js` run handler success path (lines
209-210): set the success status, then `resetUI`. -/
def runSuccessV04 (α : Type) (s : ClientState α) : ClientState α :=
  resetUI α { s with runStatus := "Success! Cleaned ZIP downloaded." }

/-- Embedded from `frontend/app.js` run handler success path (lines
259-262): set the success status; the stored session id is not touched. -/
def runSuccessV05 (α : Type) (s : ClientState α) : ClientState α :=
  { s with runStatus := "All files cleaned & downloaded!" }

/-! ## Upload response dirty-warning gates -/

/-- Per-file statistics of an upload response. -/
structure FileStat where
  filename : String
  dirty_score : ℚ
  severity : String
deriving DecidableEq

/-- An upload response, carrying both the single `severity` field the v0.4
handler reads and the `file_stats` array the v0.5 handlers read. -/
structure UploadResponse where
  severity : String
  file_stats : List FileStat
deriving DecidableEq

/-- Embedded from the v0.4 `app.js` upload handler (unnamed part_000, lines
112-116): the dirty warning is shown when the response severity differs from
"INFO". -/
def legacyDirtyGate (r : UploadResponse) : Bool :=
  decide (r.severity ≠ "INFO")

/-- Embedded from `frontend/app.js` upload handlers (lines 200-202 and
459-464): the dirty warning is shown when some entry of `file_stats` has a
severity that is neither "CLEAN" nor "GOOD". -/
def currentDirtyGate (r : UploadResponse) : Bool :=
  r.file_stats.any (fun s => decide (s.severity ≠ "CLEAN") && decide (s.severity ≠ "GOOD"))

/-! ## Concrete instances used in counterexamples and witnesses -/

/-- A 1x1 table whose only cell is missing: dirty score 100, CRITICAL. -/
def tblCritical : Table := { header := ["x"], rows := [[Cell.null]] }

/-- A 1x1 table with a single numeric cell: dirty score 0, CLEAN. -/
def tblCleanOne : Table := { header := ["x"], rows := [[Cell.num 1]] }

/-- A raw config that validates: empty sections, keep policy "first". -/
def rcValid : RawConfig :=
  { dtypes := []
    dropIfMissing := []
    fills := []
    textClean := { lower := [], strip := [], removeChars := Option.none }
    duplicatesSubset := Option.none
    keep := "first"
    outliers := { columns := [], zThreshold := 3 }
    sort := { sortBy := [], ascending := [] }
    split := Option.none }

/-- The validated form of `rcValid`. -/
def cfgValid : CleaningConfig :=
  { dtypes := []
    missing := { dropIfMissing := [], fill := [] }
    textClean := { lower := [], strip := [], removeChars := Option.none }
    duplicates := { subset := Option.none, keep := Keep.first }
    outliers := { columns := [], zThreshold := 3 }
    sort := { sortBy := [], ascending := [] }
    split := Option.none }

/-- A raw config with an unsupported fill strategy name. -/
def rcBadStrategy : RawConfig :=
  { rcValid with fills := [{ column := "price", strategy := "avg", value := Option.none }] }

/-- A store holding one session with the critical table. -/
def storeCrit : SessionStore := [("s1", [("data.csv", tblCritical)])]

/-- A store holding one session with the clean table. -/
def storeClean : SessionStore := [("s2", [("data.csv", tblCleanOne)])]

/-- A run request against the critical session without override_warnings. -/
def reqNoOverride : RunRequest :=
  { session_id := "s1", config := rcValid, override_warnings := false }

/-- A run request against the critical session with override_warnings. -/
def reqOverride : RunRequest :=
  { session_id := "s1", config := rcValid, override_warnings := true }

/-- A run request against the clean session. -/
def reqClean : RunRequest :=
  { session_id := "s2", config := rcValid, override_warnings := false }

/-- A client state holding a live session id. -/
def c3state : ClientState Unit :=
  { sessionId := some "sid-1"
    originalConfig := Option.none
    configArea := ""
    uploadStatus := ""
    runStatus := ""
    dirtyScoreText := ""
    dirtyMsgHidden := true }

/-- An upload response on which the two dirty-warning gates disagree:
severity field "INFO" but a CRITICAL entry in file_stats. -/
def c9resp : UploadResponse :=
  { severity := "INFO"
    file_stats := [{ filename := "a.csv", dirty_score := 50, severity := "CRITICAL" }] }

/-- An upload response respecting the INFO-iff-clean correspondence. -/
def c9respClean : UploadResponse :=
  { severity := "INFO"
    file_stats := [{ filename := "b.csv", dirty_score := 0, severity := "CLEAN" }] }

/-- A table on which outlier removal is not idempotent: the first pass
removes the extreme value 1000, which shrinks the standard deviation enough
that the second pass removes the value 20 as well. -/
def c8tbl : Table :=
  { header := ["x"]
    rows := [[Cell.num 8], [Cell.num 9], [Cell.num 10], [Cell.num 11],
             [Cell.num 12], [Cell.num 20], [Cell.num 1000]] }

/-- A config that only requests outlier removal on column "x" with
z-threshold 2. -/
def c8cfg : CleaningConfig :=
  { dtypes := []
    missing := { dropIfMissing := [], fill := [] }
    textClean := { lower := [], strip := [], removeChars := Option.none }
    duplicates := { subset := Option.none, keep := Keep.first }
    outliers := { columns := ["x"], zThreshold := 2 }
    sort := { sortBy := [], ascending := [] }
    split := Option.none }

/-- A table and config exercising the provable idempotent fragment: text
cleaning, a median fill, duplicate removal and a sort. -/
def c8tblW : Table :=
  { header := ["name", "value"]
    rows := [[Cell.str [' ', 'B', 'o', 'b'], Cell.num 3],
             [Cell.str ['a', 'n', 'n'], Cell.null],
             [Cell.str ['a', 'n', 'n'], Cell.null],
             [Cell.str ['C', 'd'], Cell.num 1]] }

/-- The config for the idempotence witness: lower+strip on name, median fill
on value, duplicates by all columns, sort by value. -/
def c8cfgW : CleaningConfig :=
  { dtypes := [("value", TargetType.int)]
    missing := { dropIfMissing := []
                 fill := [{ column := "value", strategy := Strategy.median, value := Option.none }] }
    textClean := { lower := ["name"], strip := ["name"], removeChars := Option.none }
    duplicates := { subset := Option.none, keep := Keep.first }
    outliers := { columns := [], zThreshold := 3 }
    sort := { sortBy := ["value"], ascending := [true] }
    split := Option.none }

end CleanBot

namespace CleanBot

/-! ## Theorems: dirty scorer -/

theorem clamp01_nonneg (q : ℚ) : 0 ≤ clamp01 q := by
  unfold clamp01
  split_ifs with h1 h2
  · exact le_refl 0
  · norm_num
  · exact le_of_not_lt h1

theorem clamp01_le_100 (q : ℚ) : clamp01 q ≤ 100 := by
  unfold clamp01
  split_ifs with h1 h2
  · norm_num
  · exact le_refl 100
  · exact le_of_not_lt h2

theorem assess_score_nonneg (t : Table) : 0 ≤ (assess t).score := by
  unfold assess
  dsimp only
  split
  · exact le_refl 0
  · exact clamp01_nonneg _

theorem assess_score_le_100 (t : Table) : (assess t).score ≤ 100 := by
  unfold assess
  dsimp only
  split
  · norm_num
  · exact clamp01_le_100 _

/-- C4: the severity of `assess(T)` is determined from the score by the named
threshold constants `LOW_THRESHOLD = 5` and `MID_THRESHOLD = 20`:
score 0 gives CLEAN, (0, 5] gives GOOD, (5, 20] gives WARNING, above 20 gives
CRITICAL. -/
theorem c4_severity_thresholds :
    LOW_THRESHOLD = 5 ∧ MID_THRESHOLD = 20 ∧
    ∀ t : Table,
      ((assess t).score = 0 → (assess t).severity = Severity.CLEAN) ∧
      (0 < (assess t).score → (assess t).score ≤ LOW_THRESHOLD →
        (assess t).severity = Severity.GOOD) ∧
      (LOW_THRESHOLD < (assess t).score → (assess t).score ≤ MID_THRESHOLD →
        (assess t).severity = Severity.WARNING) ∧
      (MID_THRESHOLD < (assess t).score →
        (assess t).severity = Severity.CRITICAL) := by
  refine ⟨rfl, rfl, fun t => ?_⟩
  have hsev : (assess t).severity = severityOf (assess t).score := by
    unfold assess
    dsimp only
  refine ⟨?_, ?_, ?_, ?_⟩
  · intro h0
    rw [hsev, h0]
    rfl
  · intro hpos hle
    rw [hsev]
    unfold severityOf
    rw [if_neg (by exact ne_of_gt hpos), if_pos hle]
  · intro hlow hmid
    rw [hsev]
    unfold severityOf
    have h0 : (assess t).score ≠ 0 := by
      intro h
      rw [h] at hlow
      unfold LOW_THRESHOLD at hlow
      norm_num at hlow
    rw [if_neg h0, if_neg (not_le.mpr hlow), if_pos hmid]
  · intro hmid
    rw [hsev]
    unfold severityOf
    have h0 : (assess t).score ≠ 0 := by
      intro h
      rw [h] at hmid
      unfold MID_THRESHOLD at hmid
      norm_num at hmid
    have hlow : ¬ (assess t).score ≤ LOW_THRESHOLD := by
      unfold LOW_THRESHOLD MID_THRESHOLD at *
      intro hc
      nlinarith
    have hmid' : ¬ (assess t).score ≤ MID_THRESHOLD := not_le.mpr hmid
    rw [if_neg h0, if_neg hlow, if_neg hmid']

/-- Witness for C4 at a concrete table: a 1x1 table whose single cell is
missing scores 100 and is CRITICAL. -/
theorem c4_severity_thresholds_witness :
    (assess { header := ["x"], rows := [[Cell.null]] }).severity =
      Severity.CRITICAL :=
  (c4_severity_thresholds.2.2 _).2.2.2 (by with_unfolding_all decide)

/-- C5: the score of an assessment equals
`100 * (missing_cells + duplicate_rows) / total_cells` clamped to [0,100]
(whenever the table is non-empty), the score always lies in [0,100], and the
severity is one of CLEAN, GOOD, WARNING, CRITICAL. -/
theorem c5_score_formula :
    ∀ t : Table,
      0 ≤ (assess t).score ∧ (assess t).score ≤ 100 ∧
      ((assess t).severity = Severity.CLEAN ∨
       (assess t).severity = Severity.GOOD ∨
       (assess t).severity = Severity.WARNING ∨
       (assess t).severity = Severity.CRITICAL) ∧
      ((assess t).total_cells ≠ 0 →
        (assess t).score =
          clamp01 (100 * (((assess t).missing_cells : ℚ) +
            ((assess t).duplicate_rows : ℚ)) / ((assess t).total_cells : ℚ))) := by
  intro t
  refine ⟨assess_score_nonneg t, assess_score_le_100 t, ?_, ?_⟩
  · cases h : (assess t).severity
    · exact Or.inl rfl
    · exact Or.inr (Or.inl rfl)
    · exact Or.inr (Or.inr (Or.inl rfl))
    · exact Or.inr (Or.inr (Or.inr rfl))
  · intro htot
    unfold assess at htot ⊢
    dsimp only at htot ⊢
    rw [if_neg htot]

/-- Witness for C5 at a concrete table with a duplicate row and a missing
cell. -/
theorem c5_score_formula_witness :
    (assess { header := ["a", "b"],
              rows := [[Cell.num 1, Cell.null],
                       [Cell.num 1, Cell.null]] }).score =
      clamp01 (100 * ((2 : ℚ) + (1 : ℚ)) / (4 : ℚ)) := by
  have h := (c5_score_formula
    { header := ["a", "b"],
      rows := [[Cell.num 1, Cell.null], [Cell.num 1, Cell.null]] }).2.2.2
    (by decide)
  rw [h]
  with_unfolding_all decide

/-- C6: on an empty table (0 rows or 0 columns) `assess` returns score 0 and
severity CLEAN, with `total_cells = 0`; by definition the guarded branch is
taken, so the division by `total_cells` is never performed on zero. -/
theorem c6_empty_table (t : Table) (h : t.rows = [] ∨ t.header = []) :
    (assess t).score = 0 ∧ (assess t).severity = Severity.CLEAN ∧
    (assess t).total_cells = 0 := by
  have htot : t.rows.length * t.header.length = 0 := by
    rcases h with h | h <;> rw [h] <;> simp
  unfold assess
  dsimp only
  rw [if_pos htot]
  exact ⟨rfl, rfl, htot⟩

/-- Witness for C6 at the concrete empty table. -/
theorem c6_empty_table_witness :
    (assess { header := ["x"], rows := [] }).score = 0 ∧
    (assess { header := ["x"], rows := [] }).severity = Severity.CLEAN ∧
    (assess { header := ["x"], rows := [] }).total_cells = 0 :=
  c6_empty_table _ (Or.inl rfl)

/-! ## Theorems: run_cleaning endpoint -/

theorem storeGet_storeErase (st : SessionStore) (sid : String) :
    storeGet (storeErase st sid) sid = Option.none := by
  induction st with
  | nil => rfl
  | cons e rest ih =>
    unfold storeErase
    by_cases h : e.1 = sid
    · rw [if_pos h]
      exact ih
    · rw [if_neg h]
      unfold storeGet
      rw [if_neg h]
      exact ih

/-- C1: if some table of the session assesses as CRITICAL and
`override_warnings` is not set, `run_cleaning` is refused with a 4xx
response carrying the warning; the run proceeds when `override_warnings` is
set or no table is CRITICAL. -/
theorem c1_critical_gate :
    ∀ (store : SessionStore) (req : RunRequest)
      (tables : List (String × Table)) (cfg : CleaningConfig),
      storeGet store req.session_id = some tables →
      validateConfig req.config = Except.ok cfg →
      ((tables.any (fun ft => decide ((assess ft.2).severity = Severity.CRITICAL)) = true ∧
          req.override_warnings = false) →
        (runCleaningEndpoint store req).1 =
          Except.error
            { code := 400
              detail := "Dataset severity is CRITICAL; set override_warnings to proceed" } ∧
        400 ≤ (400 : Nat) ∧ (400 : Nat) < 500) ∧
      ((req.override_warnings = true ∨
          tables.any (fun ft => decide ((assess ft.2).severity = Severity.CRITICAL)) = false) →
        ∃ rs, (runCleaningEndpoint store req).1 = Except.ok rs) := by
  intro store req tables cfg hget hval
  constructor
  · rintro ⟨h1, h2⟩
    refine ⟨?_, le_refl _, by norm_num⟩
    unfold runCleaningEndpoint
    rw [hget]
    dsimp only
    rw [hval]
    dsimp only
    rw [h1, h2]
    rfl
  · intro h
    unfold runCleaningEndpoint
    rw [hget]
    dsimp only
    rw [hval]
    dsimp only
    rcases h with h | h
    · rw [h]
      simp
    · rw [h]
      simp

/-- Witness for C1: the critical session without override is refused with
the 400 warning, and with override the run proceeds. -/
theorem c1_critical_gate_witness :
    (runCleaningEndpoint storeCrit reqNoOverride).1 =
      Except.error
        { code := 400
          detail := "Dataset severity is CRITICAL; set override_warnings to proceed" } ∧
    ∃ rs, (runCleaningEndpoint storeCrit reqOverride).1 = Except.ok rs := by
  constructor
  · exact ((c1_critical_gate storeCrit reqNoOverride [("data.csv", tblCritical)]
      cfgValid rfl rfl).1 ⟨by with_unfolding_all decide, rfl⟩).1
  · exact (c1_critical_gate storeCrit reqOverride [("data.csv", tblCritical)]
      cfgValid rfl rfl).2 (Or.inl rfl)

theorem validateFills_error (fills : List RawFill) (f : RawFill)
    (hmem : f ∈ fills) (hbad : parseStrategy f.strategy = Option.none) :
    ∃ f2, f2 ∈ fills ∧ parseStrategy f2.strategy = Option.none ∧
      validateFills fills = Except.error
        { field := "missing.fill." ++ f2.column ++ ".strategy"
          detail := "unsupported strategy " ++ f2.strategy } := by
  induction fills with
  | nil => cases hmem
  | cons f0 rest ih =>
    cases hp : parseStrategy f0.strategy with
    | none =>
      refine ⟨f0, List.mem_cons_self f0 rest, hp, ?_⟩
      unfold validateFills
      rw [hp]
    | some st =>
      have hrest : f ∈ rest := by
        rcases List.mem_cons.mp hmem with h | h
        · rw [h] at hbad
          rw [hp] at hbad
          cases hbad
        · exact h
      obtain ⟨f2, h2mem, h2bad, h2err⟩ := ih hrest
      refine ⟨f2, List.mem_cons_of_mem f0 h2mem, h2bad, ?_⟩
      unfold validateFills
      rw [hp, h2err]

/-- C2: run attempts with invalid configuration are rejected before any
cleaning stage runs, with a specific message naming the offending field:
(a) the v0.5 frontend handler reports "Invalid JSON config." and issues no
HTTP request when the config textarea does not parse as JSON; (b) the v0.4
frontend handler likewise reports its invalid-config message without a
request; (c) an unknown session id yields a 404 with a detail and leaves the
store (and thus every session and table) untouched; (d) a config-shape error
yields a 422 naming the offending field, again leaving the store untouched
before any stage runs; (e) an unsupported fill strategy name is such a
shape error, reported against the `missing.fill.<column>.strategy` field. -/
theorem c2_validation_rejection :
    (∀ (α : Type) (s : String) (text : String) (parse : String → Option α),
       jsTrim text ≠ "" → parse (jsTrim text) = Option.none →
       runClickV05 α (some s) text parse =
         ClickOutcome.statusOnly "Invalid JSON config.") ∧
    (∀ (α : Type) (s : String) (text : String) (parse : String → Option α),
       parse (if text = "" then "\x7b\x7d" else text) = Option.none →
       runClickV04 α (some s) text parse =
         ClickOutcome.statusOnly "Invalid JSON format in config area.") ∧
    (∀ (store : SessionStore) (req : RunRequest),
       storeGet store req.session_id = Option.none →
       (runCleaningEndpoint store req).1 =
         Except.error { code := 404, detail := "Unknown session_id" } ∧
       (runCleaningEndpoint store req).2 = store) ∧
    (∀ (store : SessionStore) (req : RunRequest)
       (tables : List (String × Table)) (e : ConfigError),
       storeGet store req.session_id = some tables →
       validateConfig req.config = Except.error e →
       (runCleaningEndpoint store req).1 =
         Except.error
           { code := 422
             detail := "Invalid config field " ++ e.field ++ ": " ++ e.detail } ∧
       (runCleaningEndpoint store req).2 = store) ∧
    (∀ (rc : RawConfig) (f : RawFill),
       f ∈ rc.fills → parseStrategy f.strategy = Option.none →
       ∃ f2, f2 ∈ rc.fills ∧ parseStrategy f2.strategy = Option.none ∧
         validateConfig rc = Except.error
           { field := "missing.fill." ++ f2.column ++ ".strategy"
             detail := "unsupported strategy " ++ f2.strategy }) := by
  refine ⟨?_, ?_, ?_, ?_, ?_⟩
  · intro α s text parse hne hparse
    unfold runClickV05
    dsimp only
    rw [if_neg hne, hparse]
  · intro α s text parse hparse
    unfold runClickV04
    rw [hparse]
  · intro store req hget
    unfold runCleaningEndpoint
    rw [hget]
    exact ⟨rfl, rfl⟩
  · intro store req tables e hget hval
    unfold runCleaningEndpoint
    rw [hget]
    dsimp only
    rw [hval]
    exact ⟨rfl, rfl⟩
  · intro rc f hmem hbad
    obtain ⟨f2, h2mem, h2bad, h2err⟩ := validateFills_error rc.fills f hmem hbad
    refine ⟨f2, h2mem, h2bad, ?_⟩
    unfold validateConfig
    rw [h2err]

/-- Witness for C2 at concrete inputs: a failing parse in both frontend
handlers, an unknown session id, and an unsupported strategy name. -/
theorem c2_validation_rejection_witness :
    runClickV05 Unit (some "s") " x" (fun _ => Option.none) =
      ClickOutcome.statusOnly "Invalid JSON config." ∧
    runClickV04 Unit (some "s") "x" (fun _ => Option.none) =
      ClickOutcome.statusOnly "Invalid JSON format in config area." ∧
    (runCleaningEndpoint storeCrit
      { session_id := "nope", config := rcValid, override_warnings := false }).1 =
      Except.error { code := 404, detail := "Unknown session_id" } ∧
    (runCleaningEndpoint storeCrit
      { session_id := "s1", config := rcBadStrategy, override_warnings := true }).1 =
      Except.error
        { code := 422
          detail := "Invalid config field missing.fill.price.strategy: unsupported strategy avg" } := by
  refine ⟨?_, ?_, ?_, ?_⟩
  · exact c2_validation_rejection.1 Unit "s" " x" (fun _ => Option.none)
      (by decide) rfl
  · exact c2_validation_rejection.2.1 Unit "s" "x" (fun _ => Option.none) rfl
  · exact (c2_validation_rejection.2.2.1 storeCrit
      { session_id := "nope", config := rcValid, override_warnings := false } rfl).1
  · exact (c2_validation_rejection.2.2.2.1 storeCrit
      { session_id := "s1", config := rcBadStrategy, override_warnings := true }
      [("data.csv", tblCritical)]
      { field := "missing.fill.price.strategy", detail := "unsupported strategy avg" }
      rfl rfl).1

/-! ## Theorems: session destruction (C3) -/

/-- C3 counterexample: the v0.5 frontend run handler does not clear the
stored session id after a successful run, contradicting the claim that the
client clears it. -/
theorem c3_counterexample :
    (runSuccessV05 Unit c3state).sessionId ≠ Option.none := by
  decide

/-- C3 amended: the session store destroys the session after a successful
run, so the session id is not usable for a subsequent run without a new
upload, and the v0.4 client clears its stored session id on success via
`resetUI`; the v0.5 client handlers, however, leave the stored session id
unchanged after a successful run. -/
theorem c3_session_destroyed_amended :
    (∀ (α : Type) (s : ClientState α), (runSuccessV04 α s).sessionId = Option.none) ∧
    (∀ (α : Type) (s : ClientState α), (runSuccessV05 α s).sessionId = s.sessionId) ∧
    (∀ (store : SessionStore) (req : RunRequest)
       (rs : List (String × CleaningResult)),
       (runCleaningEndpoint store req).1 = Except.ok rs →
       storeGet (runCleaningEndpoint store req).2 req.session_id = Option.none ∧
       (runCleaningEndpoint (runCleaningEndpoint store req).2 req).1 =
         Except.error { code := 404, detail := "Unknown session_id" }) := by
  refine ⟨fun α s => rfl, fun α s => rfl, ?_⟩
  intro store req rs hok
  cases hget : storeGet store req.session_id with
  | none =>
    unfold runCleaningEndpoint at hok
    rw [hget] at hok
    cases hok
  | some tables =>
    cases hval : validateConfig req.config with
    | error e =>
      unfold runCleaningEndpoint at hok
      rw [hget] at hok
      dsimp only at hok
      rw [hval] at hok
      cases hok
    | ok cfg =>
      cases hcond : tables.any
          (fun ft => decide ((assess ft.2).severity = Severity.CRITICAL))
          && !req.override_warnings with
      | true =>
        unfold runCleaningEndpoint at hok
        rw [hget] at hok
        dsimp only at hok
        rw [hval] at hok
        dsimp only at hok
        rw [hcond] at hok
        cases hok
      | false =>
        have hsnd : (runCleaningEndpoint store req).2 =
            storeErase store req.session_id := by
          unfold runCleaningEndpoint
          rw [hget]
          dsimp only
          rw [hval]
          dsimp only
          rw [hcond]
          rfl
        rw [hsnd]
        refine ⟨storeGet_storeErase store req.session_id, ?_⟩
        unfold runCleaningEndpoint
        rw [storeGet_storeErase store req.session_id]

/-- Witness for C3 amended: after a successful run against the clean
session, its id is gone from the store and a second identical run is a
404. -/
theorem c3_session_destroyed_amended_witness :
    storeGet (runCleaningEndpoint storeClean reqClean).2 "s2" = Option.none ∧
    (runCleaningEndpoint (runCleaningEndpoint storeClean reqClean).2 reqClean).1 =
      Except.error { code := 404, detail := "Unknown session_id" } := by
  have hok : ∃ rs, (runCleaningEndpoint storeClean reqClean).1 = Except.ok rs :=
    (c1_critical_gate storeClean reqClean [("data.csv", tblCleanOne)] cfgValid
      rfl rfl).2 (Or.inr (by with_unfolding_all decide))
  obtain ⟨rs, hrs⟩ := hok
  exact c3_session_destroyed_amended.2.2 storeClean reqClean rs hrs

/-! ## Theorems: drop_duplicates (C7) -/

/-- C7: `drop_duplicates` under the keep policies on the row sequence
[A, A, B, A] (all columns as the key, since no subset is given): keep=first
yields [A, B], keep=last yields [B, A], keep=none yields [B]. -/
theorem c7_drop_duplicates :
    ∀ (h : List ColName) (A B : Row), A ≠ B →
      (dropDuplicates { subset := Option.none, keep := Keep.first } h [A, A, B, A]).1 = [A, B] ∧
      (dropDuplicates { subset := Option.none, keep := Keep.last } h [A, A, B, A]).1 = [B, A] ∧
      (dropDuplicates { subset := Option.none, keep := Keep.none } h [A, A, B, A]).1 = [B] := by
  intro h A B hAB
  have hBA : B ≠ A := fun hc => hAB hc.symm
  refine ⟨?_, ?_, ?_⟩
  · show ddFirst (rowKey { subset := Option.none, keep := Keep.first } h) [] [A, A, B, A] = [A, B]
    simp [rowKey, ddFirst, hAB, hBA]
  · show ddLast (rowKey { subset := Option.none, keep := Keep.last } h) [A, A, B, A] = [B, A]
    simp [rowKey, ddLast, hAB, hBA]
  · show ddNone (rowKey { subset := Option.none, keep := Keep.none } h) [A, A, B, A] = [B]
    simp [rowKey, ddNone, hAB, hBA, List.countP_cons]

/-- Witness for C7 at concrete distinct rows. -/
theorem c7_drop_duplicates_witness :
    (dropDuplicates { subset := Option.none, keep := Keep.first } ["x"]
      [[Cell.num 1], [Cell.num 1], [Cell.num 2], [Cell.num 1]]).1 =
      [[Cell.num 1], [Cell.num 2]] :=
  (c7_drop_duplicates ["x"] [Cell.num 1] [Cell.num 2] (by decide)).1

/-! ## Theorems: dirty-warning gates (C9) -/

/-- C9 counterexample: the legacy (v0.4) and current (v0.5) dirty-warning
gates disagree on a response whose severity field is "INFO" while its
file_stats contain a CRITICAL entry. -/
theorem c9_counterexample :
    legacyDirtyGate c9resp ≠ currentDirtyGate c9resp := by
  decide

/-- C9 amended: the legacy gate (severity differs from "INFO") and the
current gate (some file_stats severity neither "CLEAN" nor "GOOD") agree
exactly on the upload responses respecting the version correspondence that
the severity field is "INFO" precisely when every file_stats severity is
CLEAN or GOOD; on such responses the two handlers decide the banner
identically. -/
theorem c9_gate_agreement_amended :
    ∀ r : UploadResponse,
      (r.severity = "INFO" ↔
        ∀ s ∈ r.file_stats, s.severity = "CLEAN" ∨ s.severity = "GOOD") →
      legacyDirtyGate r = currentDirtyGate r := by
  intro r hcorr
  unfold legacyDirtyGate currentDirtyGate
  by_cases hs : r.severity = "INFO"
  · have hall := hcorr.mp hs
    have hany : r.file_stats.any
        (fun s => decide (s.severity ≠ "CLEAN") && decide (s.severity ≠ "GOOD")) = false := by
      rw [List.any_eq_false]
      intro s hmem
      rcases hall s hmem with h | h <;> simp [h]
    rw [hany, hs]
    simp
  · have hex : ¬ ∀ s ∈ r.file_stats, s.severity = "CLEAN" ∨ s.severity = "GOOD" :=
      fun hall => hs (hcorr.mpr hall)
    push_neg at hex
    obtain ⟨s, hmem, hsev⟩ := hex
    have hany : r.file_stats.any
        (fun s => decide (s.severity ≠ "CLEAN") && decide (s.severity ≠ "GOOD")) = true := by
      rw [List.any_eq_true]
      exact ⟨s, hmem, by simp [hsev.1, hsev.2]⟩
    rw [hany]
    simp [hs]

/-- Witness for C9 amended at a concrete response respecting the
correspondence. -/
theorem c9_gate_agreement_amended_witness :
    legacyDirtyGate c9respClean = currentDirtyGate c9respClean :=
  c9_gate_agreement_amended c9respClean (by decide)

/-! ## Theorems: null-session guard (C10) -/

/-- C10: in every version of the frontend run handler, a click with no
stored session id produces only the upload-first status message and issues
no HTTP request (the outcome is `statusOnly`, never `httpPost`). -/
theorem c10_null_session_guard :
    ∀ (α : Type) (text : String) (parse : String → Option α),
      runClickV05 α Option.none text parse =
        ClickOutcome.statusOnly "Upload files first." ∧
      runClickV05b α Option.none =
        ClickOutcome.statusOnly "Upload files first." ∧
      runClickV04 α Option.none text parse =
        ClickOutcome.statusOnly "Please upload a file first." :=
  fun _ _ _ => ⟨rfl, rfl, rfl⟩

/-! ## List index helper lemmas -/

theorem cb_getD_oob {α : Type} :
    ∀ (l : List α) (j : Nat) (d : α), l.length ≤ j → l.getD j d = d := by
  intro l
  induction l with
  | nil => intro j d _; cases j <;> rfl
  | cons x xs ih =>
    intro j d hj
    cases j with
    | zero => simp at hj
    | succ j => exact ih j d (Nat.le_of_succ_le_succ hj)

theorem cb_set_oob {α : Type} :
    ∀ (l : List α) (j : Nat) (v : α), l.length ≤ j → l.set j v = l := by
  intro l
  induction l with
  | nil => intro j v _; rfl
  | cons x xs ih =>
    intro j v hj
    cases j with
    | zero => simp at hj
    | succ j => simp [List.set, ih j v (Nat.le_of_succ_le_succ hj)]

theorem cb_getD_set_eq {α : Type} :
    ∀ (l : List α) (j : Nat) (v d : α), j < l.length →
      (l.set j v).getD j d = v := by
  intro l
  induction l with
  | nil => intro j v d hj; simp at hj
  | cons x xs ih =>
    intro j v d hj
    cases j with
    | zero => rfl
    | succ j => exact ih j v d (Nat.lt_of_succ_lt_succ hj)

theorem cb_getD_set_ne {α : Type} :
    ∀ (l : List α) (j j' : Nat) (v d : α), j' ≠ j →
      (l.set j v).getD j' d = l.getD j' d := by
  intro l
  induction l with
  | nil => intro j j' v d _; rfl
  | cons x xs ih =>
    intro j j' v d hne
    cases j with
    | zero =>
      cases j' with
      | zero => exact absurd rfl hne
      | succ j' => rfl
    | succ j =>
      cases j' with
      | zero => rfl
      | succ j' => exact ih j j' v d (fun h => hne (by rw [h]))

theorem cb_set_getD_self {α : Type} :
    ∀ (l : List α) (j : Nat) (d : α), l.set j (l.getD j d) = l := by
  intro l
  induction l with
  | nil => intro j d; rfl
  | cons x xs ih =>
    intro j d
    cases j with
    | zero => rfl
    | succ j =>
      show x :: xs.set j (xs.getD j d) = x :: xs
      rw [ih]

/-! ## Character lemmas -/

theorem charToLower_eq (c : Char) :
    charToLower c = c ∨
    ∃ p ∈ upperLowerPairs, p.1 = c ∧ charToLower c = p.2 := by
  unfold charToLower
  cases hf : upperLowerPairs.find? (fun p => decide (p.1 = c)) with
  | none => exact Or.inl rfl
  | some p =>
    refine Or.inr ⟨p, List.mem_of_find?_eq_some hf, ?_, rfl⟩
    have hp := List.find?_some hf
    exact of_decide_eq_true hp

theorem upperLowerPairs_facts :
    ∀ p ∈ upperLowerPairs,
      p.1.isWhitespace = false ∧ p.2.isWhitespace = false ∧
      isNumChar p.1 = false ∧ isNumChar p.2 = false := by
  decide

theorem upperLowerPairs_no_lower :
    ∀ p ∈ upperLowerPairs, ∀ q ∈ upperLowerPairs, q.1 ≠ p.2 := by
  decide

theorem charToLower_isWs (c : Char) :
    (charToLower c).isWhitespace = c.isWhitespace := by
  rcases charToLower_eq c with h | ⟨p, hmem, hpc, heq⟩
  · rw [h]
  · rw [heq, ← hpc]
    rw [(upperLowerPairs_facts p hmem).2.1, (upperLowerPairs_facts p hmem).1]

theorem charToLower_isNum (c : Char) :
    isNumChar (charToLower c) = isNumChar c := by
  rcases charToLower_eq c with h | ⟨p, hmem, hpc, heq⟩
  · rw [h]
  · rw [heq, ← hpc]
    rw [(upperLowerPairs_facts p hmem).2.2.2, (upperLowerPairs_facts p hmem).2.2.1]

theorem charToLower_eq_self_of_isNum (c : Char) (h : isNumChar c = true) :
    charToLower c = c := by
  rcases charToLower_eq c with h' | ⟨p, hmem, hpc, heq⟩
  · exact h'
  · rw [← hpc] at h
    rw [(upperLowerPairs_facts p hmem).2.2.1] at h
    cases h

theorem charToLower_idem (c : Char) :
    charToLower (charToLower c) = charToLower c := by
  rcases charToLower_eq c with h | ⟨p, hmem, hpc, heq⟩
  · rw [h]
    exact h
  · rw [heq]
    have hnone : upperLowerPairs.find? (fun q => decide (q.1 = p.2)) = Option.none := by
      rw [List.find?_eq_none]
      intro q hq
      simp only [decide_eq_true_eq]
      exact upperLowerPairs_no_lower p hmem q hq
    unfold charToLower
    rw [hnone]

/-! ## Trim lemmas -/

theorem dropTrailWs_cons (c : Char) (r : List Char) :
    dropTrailWs (c :: r) =
      if dropTrailWs r = [] ∧ c.isWhitespace = true then [] else c :: dropTrailWs r :=
  rfl

theorem dropWhileWs_idem (l : List Char) :
    List.dropWhile Char.isWhitespace (List.dropWhile Char.isWhitespace l) =
      List.dropWhile Char.isWhitespace l := by
  induction l with
  | nil => rfl
  | cons c r ih =>
    by_cases hc : c.isWhitespace = true
    · simp [List.dropWhile_cons, hc, ih]
    · simp [List.dropWhile_cons, hc]

theorem dropTrailWs_idem (l : List Char) :
    dropTrailWs (dropTrailWs l) = dropTrailWs l := by
  induction l with
  | nil => rfl
  | cons c r ih =>
    by_cases h : dropTrailWs r = [] ∧ c.isWhitespace = true
    · rw [dropTrailWs_cons, if_pos h]
      rfl
    · rw [dropTrailWs_cons, if_neg h, dropTrailWs_cons, ih, if_neg h]

theorem length_dropWhile_le_cb {α : Type} (p : α → Bool) (l : List α) :
    (List.dropWhile p l).length ≤ l.length := by
  induction l with
  | nil => exact le_refl 0
  | cons c r ih =>
    by_cases hc : p c = true
    · rw [List.dropWhile_cons, if_pos hc]
      exact Nat.le_succ_of_le ih
    · rw [List.dropWhile_cons, if_neg hc]

theorem dropWhile_dropTrailWs (l : List Char)
    (h : List.dropWhile Char.isWhitespace l = l) :
    List.dropWhile Char.isWhitespace (dropTrailWs l) = dropTrailWs l := by
  cases l with
  | nil => rfl
  | cons c r =>
    have hc : c.isWhitespace = false := by
      by_contra hcc
      have hct : c.isWhitespace = true := by
        cases hb : c.isWhitespace
        · exact absurd hb hcc
        · rfl
      rw [List.dropWhile_cons, if_pos hct] at h
      have hlen := length_dropWhile_le_cb Char.isWhitespace r
      rw [h] at hlen
      simp at hlen
    rw [dropTrailWs_cons]
    by_cases hr : dropTrailWs r = [] ∧ c.isWhitespace = true
    · rw [if_pos hr]
      rfl
    · rw [if_neg hr, List.dropWhile_cons, hc]
      simp

theorem trimChars_idem (l : List Char) :
    trimChars (trimChars l) = trimChars l := by
  unfold trimChars
  rw [dropWhile_dropTrailWs _ (dropWhileWs_idem l), dropTrailWs_idem]

theorem dropWhile_map_lower (l : List Char) :
    List.dropWhile Char.isWhitespace (l.map charToLower) =
      (List.dropWhile Char.isWhitespace l).map charToLower := by
  induction l with
  | nil => rfl
  | cons c r ih =>
    rw [List.map_cons, List.dropWhile_cons, List.dropWhile_cons, charToLower_isWs]
    by_cases hc : c.isWhitespace = true
    · rw [if_pos hc, if_pos hc, ih]
    · rw [if_neg hc, if_neg hc, List.map_cons]

theorem dropTrailWs_map_lower (l : List Char) :
    dropTrailWs (l.map charToLower) = (dropTrailWs l).map charToLower := by
  induction l with
  | nil => rfl
  | cons c r ih =>
    rw [List.map_cons, dropTrailWs_cons, dropTrailWs_cons, ih, charToLower_isWs]
    have hnil : ((dropTrailWs r).map charToLower = [] ↔ dropTrailWs r = []) :=
      List.map_eq_nil_iff
    by_cases hr : dropTrailWs r = [] ∧ c.isWhitespace = true
    · rw [if_pos ⟨hnil.mpr hr.1, hr.2⟩, if_pos hr]
      rfl
    · have : ¬ ((dropTrailWs r).map charToLower = [] ∧ c.isWhitespace = true) := by
        intro hcc
        exact hr ⟨hnil.mp hcc.1, hcc.2⟩
      rw [if_neg this, if_neg hr, List.map_cons]

theorem trimChars_map_lower (l : List Char) :
    trimChars (l.map charToLower) = (trimChars l).map charToLower := by
  unfold trimChars
  rw [dropWhile_map_lower, dropTrailWs_map_lower]

theorem trimChars_nil_map_lower (l : List Char) :
    (trimChars (l.map charToLower) = [] ↔ trimChars l = []) := by
  rw [trimChars_map_lower]
  exact List.map_eq_nil_iff

/-! ## Parse lemmas -/

theorem all_isDigit_isNum (l : List Char) (h : l.all Char.isDigit = true) :
    l.all isNumChar = true := by
  rw [List.all_eq_true] at h ⊢
  intro c hc
  have := h c hc
  simp [isNumChar, this]

theorem parseIntQ_some_all (l : List Char) (q : ℚ)
    (hp : parseIntQ l = some q) : l.all isNumChar = true := by
  unfold parseIntQ at hp
  split at hp
  · rename_i r
    split_ifs at hp with hcond
    rw [List.all_cons, Bool.and_eq_true]
    refine ⟨by decide, all_isDigit_isNum r hcond.2⟩
  · split_ifs at hp with hcond
    exact all_isDigit_isNum l hcond.2

theorem parseUnsignedQ_some_all (l : List Char) (q : ℚ)
    (hp : parseUnsignedQ l = some q) : l.all isNumChar = true := by
  unfold parseUnsignedQ at hp
  dsimp only at hp
  have hsplit := List.takeWhile_append_dropWhile (p := Char.isDigit) (l := l)
  split_ifs at hp with hip
  have hipall : (l.takeWhile Char.isDigit).all isNumChar = true :=
    all_isDigit_isNum _ (by
      rw [List.all_eq_true]
      intro c hc
      exact List.mem_takeWhile_imp hc)
  rw [← hsplit, List.all_append]
  split at hp
  · rename_i hrest
    rw [hrest]
    simp [hipall]
  · rename_i fr hrest
    split_ifs at hp with hfr
    rw [hrest, List.all_cons, Bool.and_eq_true, Bool.and_eq_true]
    refine ⟨hipall, by decide, all_isDigit_isNum fr hfr.2⟩
  · cases hp

theorem parseFloatQ_some_all (l : List Char) (q : ℚ)
    (hp : parseFloatQ l = some q) : l.all isNumChar = true := by
  unfold parseFloatQ at hp
  split at hp
  · rename_i r
    rw [List.all_cons, Bool.and_eq_true]
    cases hu : parseUnsignedQ r with
    | none => rw [hu] at hp; cases hp
    | some qu =>
      refine ⟨by decide, parseUnsignedQ_some_all r qu hu⟩
  · exact parseUnsignedQ_some_all l q hp

theorem map_lower_eq_self_of_all_num (l : List Char)
    (h : l.all isNumChar = true) : l.map charToLower = l := by
  induction l with
  | nil => rfl
  | cons c r ih =>
    rw [List.all_cons, Bool.and_eq_true] at h
    rw [List.map_cons, charToLower_eq_self_of_isNum c h.1, ih h.2]

theorem all_isNum_map_lower (l : List Char) :
    (l.map charToLower).all isNumChar = l.all isNumChar := by
  induction l with
  | nil => rfl
  | cons c r ih =>
    rw [List.map_cons, List.all_cons, List.all_cons, charToLower_isNum, ih]

theorem parseIntQ_map_lower (l : List Char)
    (h : parseIntQ l = Option.none) :
    parseIntQ (l.map charToLower) = Option.none := by
  cases hps : parseIntQ (l.map charToLower) with
  | none => rfl
  | some q =>
    have hall : (l.map charToLower).all isNumChar = true :=
      parseIntQ_some_all _ q hps
    rw [all_isNum_map_lower] at hall
    rw [map_lower_eq_self_of_all_num l hall] at hps
    rw [h] at hps
    cases hps

theorem parseFloatQ_map_lower (l : List Char)
    (h : parseFloatQ l = Option.none) :
    parseFloatQ (l.map charToLower) = Option.none := by
  cases hps : parseFloatQ (l.map charToLower) with
  | none => rfl
  | some q =>
    have hall : (l.map charToLower).all isNumChar = true :=
      parseFloatQ_some_all _ q hps
    rw [all_isNum_map_lower] at hall
    rw [map_lower_eq_self_of_all_num l hall] at hps
    rw [h] at hps
    cases hps

/-! ## Cell lemmas -/

theorem isMissing_cellLower (x : Cell) :
    isMissingCell (cellLower x) = isMissingCell x := by
  cases x with
  | null => rfl
  | num q => rfl
  | str s =>
    show decide (trimChars (s.map charToLower) = []) = decide (trimChars s = [])
    exact decide_eq_decide.mpr (trimChars_nil_map_lower s)

theorem isMissing_cellStrip (x : Cell) :
    isMissingCell (cellStrip x) = isMissingCell x := by
  cases x with
  | null => rfl
  | num q => rfl
  | str s =>
    show decide (trimChars (trimChars s) = []) = decide (trimChars s = [])
    rw [trimChars_idem]

theorem cellLower_num (x : Cell) (q : ℚ) (h : cellLower x = Cell.num q) :
    x = Cell.num q := by
  cases x with
  | null => cases h
  | num q' => exact h
  | str s => cases h

theorem cellStrip_num (x : Cell) (q : ℚ) (h : cellStrip x = Cell.num q) :
    x = Cell.num q := by
  cases x with
  | null => cases h
  | num q' => exact h
  | str s => cases h

theorem coerce_str_int_none (s : List Char)
    (h : coerceCell TargetType.int (Cell.str s) = Cell.str s) :
    parseIntQ (trimChars s) = Option.none := by
  cases hp : parseIntQ (trimChars s) with
  | none => rfl
  | some q =>
    simp only [coerceCell] at h
    rw [hp] at h
    cases h

theorem coerce_str_float_none (s : List Char)
    (h : coerceCell TargetType.float (Cell.str s) = Cell.str s) :
    parseFloatQ (trimChars s) = Option.none := by
  cases hp : parseFloatQ (trimChars s) with
  | none => rfl
  | some q =>
    simp only [coerceCell] at h
    rw [hp] at h
    cases h

theorem coerce_int_of_parse_none (s : List Char)
    (h : parseIntQ (trimChars s) = Option.none) :
    coerceCell TargetType.int (Cell.str s) = Cell.str s := by
  simp only [coerceCell]
  rw [h]

theorem coerce_float_of_parse_none (s : List Char)
    (h : parseFloatQ (trimChars s) = Option.none) :
    coerceCell TargetType.float (Cell.str s) = Cell.str s := by
  simp only [coerceCell]
  rw [h]

theorem coerceCell_idem (ty : TargetType) (x : Cell) :
    coerceCell ty (coerceCell ty x) = coerceCell ty x := by
  cases x with
  | null => rfl
  | num q => rfl
  | str s =>
    cases ty with
    | int =>
      cases hp : parseIntQ (trimChars s) with
      | some q => simp only [coerceCell]; rw [hp]
      | none => rw [coerce_int_of_parse_none s hp, coerce_int_of_parse_none s hp]
    | float =>
      cases hp : parseFloatQ (trimChars s) with
      | some q => simp only [coerceCell]; rw [hp]
      | none => rw [coerce_float_of_parse_none s hp, coerce_float_of_parse_none s hp]

theorem coerceCell_fixed_after (ty ty' : TargetType) (x : Cell)
    (hfix : coerceCell ty x = x) :
    coerceCell ty (coerceCell ty' x) = coerceCell ty' x := by
  cases x with
  | null => rfl
  | num q => rfl
  | str s =>
    cases ty' with
    | int =>
      cases hp : parseIntQ (trimChars s) with
      | some q => simp only [coerceCell]; rw [hp]
      | none => rw [coerce_int_of_parse_none s hp]; exact hfix
    | float =>
      cases hp : parseFloatQ (trimChars s) with
      | some q => simp only [coerceCell]; rw [hp]
      | none => rw [coerce_float_of_parse_none s hp]; exact hfix

theorem coerceCell_fixed_lower (ty : TargetType) (x : Cell)
    (hfix : coerceCell ty x = x) :
    coerceCell ty (cellLower x) = cellLower x := by
  cases x with
  | null => rfl
  | num q => rfl
  | str s =>
    show coerceCell ty (Cell.str (s.map charToLower)) = Cell.str (s.map charToLower)
    cases ty with
    | int =>
      have hnone := coerce_str_int_none s hfix
      refine coerce_int_of_parse_none _ ?_
      rw [trimChars_map_lower]
      exact parseIntQ_map_lower _ hnone
    | float =>
      have hnone := coerce_str_float_none s hfix
      refine coerce_float_of_parse_none _ ?_
      rw [trimChars_map_lower]
      exact parseFloatQ_map_lower _ hnone

theorem coerceCell_fixed_strip (ty : TargetType) (x : Cell)
    (hfix : coerceCell ty x = x) :
    coerceCell ty (cellStrip x) = cellStrip x := by
  cases x with
  | null => rfl
  | num q => rfl
  | str s =>
    show coerceCell ty (Cell.str (trimChars s)) = Cell.str (trimChars s)
    cases ty with
    | int =>
      have hnone := coerce_str_int_none s hfix
      refine coerce_int_of_parse_none _ ?_
      rw [trimChars_idem]
      exact hnone
    | float =>
      have hnone := coerce_str_float_none s hfix
      refine coerce_float_of_parse_none _ ?_
      rw [trimChars_idem]
      exact hnone

/-! ## Mode and fill-value lemmas -/

theorem modeBest_mem (all : List Cell) :
    ∀ (rest : List Cell) (cur : Cell), cur ∈ all → (∀ c ∈ rest, c ∈ all) →
      modeBest all cur rest ∈ all := by
  intro rest
  induction rest with
  | nil => intro cur hcur _; exact hcur
  | cons c r ih =>
    intro cur hcur hrest
    unfold modeBest
    by_cases hcnt : all.count c > all.count cur
    · rw [if_pos hcnt]
      exact ih c (hrest c (List.mem_cons_self c r)) (fun d hd => hrest d (List.mem_cons_of_mem c hd))
    · rw [if_neg hcnt]
      exact ih cur hcur (fun d hd => hrest d (List.mem_cons_of_mem c hd))

theorem modeOf_mem (l : List Cell) (v : Cell) (h : modeOf l = some v) :
    v ∈ l := by
  cases l with
  | nil => cases h
  | cons x xs =>
    unfold modeOf at h
    have hv : modeBest (x :: xs) x xs = v := Option.some_injective _ h
    rw [← hv]
    exact modeBest_mem (x :: xs) xs x (List.mem_cons_self x xs)
      (fun d hd => List.mem_cons_of_mem x hd)

theorem fillValue_nonMissing (d : FillDirective) (colVals : List Cell) (v : Cell)
    (hval : d.value = Option.none)
    (h : fillValue d colVals = some v) : isMissingCell v = false := by
  obtain ⟨col, strat, val⟩ := d
  dsimp only at hval
  subst hval
  cases strat with
  | mean =>
    simp only [fillValue] at h
    split at h
    · have hvmem := modeOf_mem _ v h
      have hm2 := List.of_mem_filter hvmem
      simpa using hm2
    · rw [← Option.some_injective _ h]; rfl
  | median =>
    simp only [fillValue] at h
    split at h
    · have hvmem := modeOf_mem _ v h
      have hm2 := List.of_mem_filter hvmem
      simpa using hm2
    · rw [← Option.some_injective _ h]; rfl
  | mode =>
    simp only [fillValue] at h
    have hvmem := modeOf_mem _ v h
    have hm2 := List.of_mem_filter hvmem
    simpa using hm2
  | constant =>
    simp only [fillValue] at h
    cases h

theorem fillValue_cases (d : FillDirective) (colVals : List Cell) (v : Cell)
    (hval : d.value = Option.none)
    (h : fillValue d colVals = some v) :
    (∃ q : ℚ, v = Cell.num q) ∨ v ∈ colVals := by
  obtain ⟨col, strat, val⟩ := d
  dsimp only at hval
  subst hval
  cases strat with
  | mean =>
    simp only [fillValue] at h
    split at h
    · exact Or.inr (List.mem_of_mem_filter (modeOf_mem _ v h))
    · exact Or.inl ⟨_, (Option.some_injective _ h).symm⟩
  | median =>
    simp only [fillValue] at h
    split at h
    · exact Or.inr (List.mem_of_mem_filter (modeOf_mem _ v h))
    · exact Or.inl ⟨_, (Option.some_injective _ h).symm⟩
  | mode =>
    simp only [fillValue] at h
    exact Or.inr (List.mem_of_mem_filter (modeOf_mem _ v h))
  | constant =>
    simp only [fillValue] at h
    cases h

theorem insertLe_ne_nil {α : Type} (le : α → α → Bool) (x : α) (l : List α) :
    insertLe le x l ≠ [] := by
  cases l with
  | nil => intro h; cases h
  | cons y ys =>
    unfold insertLe
    by_cases hle : le x y = true
    · rw [if_pos hle]; intro h; cases h
    · rw [if_neg hle]; intro h; cases h

theorem insSort_eq_nil {α : Type} (le : α → α → Bool) (l : List α)
    (h : insSort le l = []) : l = [] := by
  cases l with
  | nil => rfl
  | cons x xs =>
    exact absurd h (insertLe_ne_nil le x (insSort le xs))

theorem numericVals_eq_nil (l : List Cell) :
    numericVals l = [] ↔ ∀ c ∈ l, ∀ q : ℚ, c ≠ Cell.num q := by
  unfold numericVals
  rw [List.filterMap_eq_nil_iff]
  constructor
  · intro h c hc q hq
    have := h c hc
    rw [hq] at this
    cases this
  · intro h c hc
    cases hcc : c with
    | null => rfl
    | str s => rfl
    | num q => exact absurd hcc (h c hc q)

theorem fv_none_mean (d : FillDirective) (colVals : List Cell)
    (hs : d.strategy = Strategy.mean) (hval : d.value = Option.none)
    (h : fillValue d colVals = Option.none) :
    colVals.filter (fun c => !(isMissingCell c)) = [] := by
  unfold fillValue at h
  rw [hs] at h
  dsimp only at h
  cases hn : numericVals colVals with
  | nil =>
    rw [hn, hval] at h
    dsimp only at h
    cases hf : colVals.filter (fun c => !(isMissingCell c)) with
    | nil => rfl
    | cons x xs =>
      rw [hf] at h
      unfold modeOf at h
      cases h
  | cons v vs => rw [hn] at h; cases h

theorem fv_none_median (d : FillDirective) (colVals : List Cell)
    (hs : d.strategy = Strategy.median) (hval : d.value = Option.none)
    (h : fillValue d colVals = Option.none) :
    colVals.filter (fun c => !(isMissingCell c)) = [] := by
  unfold fillValue at h
  rw [hs] at h
  dsimp only at h
  cases hn : insSort qLeB (numericVals colVals) with
  | nil =>
    rw [hn, hval] at h
    dsimp only at h
    cases hf : colVals.filter (fun c => !(isMissingCell c)) with
    | nil => rfl
    | cons x xs =>
      rw [hf] at h
      unfold modeOf at h
      cases h
  | cons v vs => rw [hn] at h; cases h

theorem fv_none_mode (d : FillDirective) (colVals : List Cell)
    (hs : d.strategy = Strategy.mode) (h : fillValue d colVals = Option.none) :
    colVals.filter (fun c => !(isMissingCell c)) = [] := by
  unfold fillValue at h
  rw [hs] at h
  dsimp only at h
  cases hn : colVals.filter (fun c => !(isMissingCell c)) with
  | nil => rfl
  | cons v vs =>
    rw [hn] at h
    unfold modeOf at h
    cases h

theorem filter_nonMissing_nil (l : List Cell) :
    l.filter (fun c => !(isMissingCell c)) = [] ↔
      ∀ c ∈ l, isMissingCell c = true := by
  rw [List.filter_eq_nil_iff]
  constructor
  · intro h c hc
    have := h c hc
    simpa using this
  · intro h c hc
    simpa using h c hc

/-! ## Column index and updateCol lemmas -/

theorem colIdx_inj :
    ∀ (h : List ColName) (c c' : ColName) (j : Nat),
      colIdx h c = some j → colIdx h c' = some j → c = c' := by
  intro h
  induction h with
  | nil => intro c c' j hc _; cases hc
  | cons x xs ih =>
    intro c c' j hc hc'
    unfold colIdx at hc hc'
    by_cases hx : x = c
    · rw [if_pos hx] at hc
      have hj : j = 0 := (Option.some_injective _ hc).symm
      by_cases hx' : x = c'
      · rw [← hx, hx']
      · rw [if_neg hx'] at hc'
        obtain ⟨j0, _, hj0⟩ := Option.map_eq_some'.mp hc'
        rw [hj] at hj0
        cases hj0
    · rw [if_neg hx] at hc
      obtain ⟨j1, hj1, hj1e⟩ := Option.map_eq_some'.mp hc
      by_cases hx' : x = c'
      · rw [if_pos hx'] at hc'
        have hj : j = 0 := (Option.some_injective _ hc').symm
        rw [hj] at hj1e
        cases hj1e
      · rw [if_neg hx'] at hc'
        obtain ⟨j2, hj2, hj2e⟩ := Option.map_eq_some'.mp hc'
        have : j1 = j2 := by
          have := hj1e.trans hj2e.symm
          exact Nat.succ_injective this
        rw [← this] at hj2
        exact ih c c' j1 hj1 hj2

theorem length_updateRowAt (j : Nat) (g : Cell → Cell) (r : Row) :
    (updateRowAt j g r).length = r.length := by
  unfold updateRowAt
  exact List.length_set r j _

theorem getD_updateRowAt_same (j : Nat) (g : Cell → Cell) (r : Row)
    (hg : g Cell.null = Cell.null) :
    (updateRowAt j g r).getD j Cell.null = g (r.getD j Cell.null) := by
  unfold updateRowAt
  by_cases hj : j < r.length
  · exact cb_getD_set_eq r j _ Cell.null hj
  · have hle : r.length ≤ j := Nat.le_of_not_lt hj
    rw [cb_set_oob r j _ hle, cb_getD_oob r j Cell.null hle, hg]

theorem getD_updateRowAt_ne (j j' : Nat) (g : Cell → Cell) (r : Row)
    (hne : j' ≠ j) :
    (updateRowAt j g r).getD j' Cell.null = r.getD j' Cell.null := by
  unfold updateRowAt
  exact cb_getD_set_ne r j j' _ Cell.null hne

theorem updateCol_cellwise (h : List ColName) (c : ColName) (g : Cell → Cell)
    (rows : List Row) (hg : g Cell.null = Cell.null) :
    ∀ r' ∈ updateCol h c g rows, ∃ r ∈ rows, r'.length = r.length ∧
      ∀ j', r'.getD j' Cell.null = r.getD j' Cell.null ∨
        (colIdx h c = some j' ∧
          r'.getD j' Cell.null = g (r.getD j' Cell.null)) := by
  intro r' hr'
  unfold updateCol at hr'
  cases hidx : colIdx h c with
  | none =>
    rw [hidx] at hr'
    exact ⟨r', hr', rfl, fun j' => Or.inl rfl⟩
  | some j =>
    rw [hidx] at hr'
    obtain ⟨r, hr, heq⟩ := List.mem_map.mp hr'
    refine ⟨r, hr, ?_, ?_⟩
    · rw [← heq]; exact length_updateRowAt j g r
    · intro j'
      by_cases hj : j' = j
      · subst hj
        exact Or.inr ⟨rfl, by rw [← heq]; exact getD_updateRowAt_same j' g r hg⟩
      · left
        rw [← heq]
        exact getD_updateRowAt_ne j j' g r hj

theorem updateCol_noop (h : List ColName) (c : ColName) (g : Cell → Cell)
    (rows : List Row)
    (hfix : ∀ j, colIdx h c = some j →
      ∀ r ∈ rows, g (r.getD j Cell.null) = r.getD j Cell.null) :
    updateCol h c g rows = rows := by
  unfold updateCol
  cases hidx : colIdx h c with
  | none => rfl
  | some j =>
    have hrow : ∀ r ∈ rows, updateRowAt j g r = r := by
      intro r hr
      unfold updateRowAt
      rw [hfix j hidx r hr]
      exact cb_set_getD_self r j Cell.null
    have h2 : rows.map (updateRowAt j g) = rows.map id :=
      List.map_congr_left (fun a ha => by rw [hrow a ha]; rfl)
    show rows.map (updateRowAt j g) = rows
    rw [h2, List.map_id]

/-! ## apply_dtypes lemmas -/

theorem applyDtypes_cons (p : ColName × TargetType)
    (rest : List (ColName × TargetType)) (h : List ColName) (rows : List Row) :
    applyDtypes (p :: rest) h rows =
      applyDtypes rest h (updateCol h p.1 (coerceCell p.2) rows) := rfl

theorem applyDtypes_noop (dts : List (ColName × TargetType)) (h : List ColName)
    (rows : List Row) (hfix : FixedCols dts h rows) :
    applyDtypes dts h rows = rows := by
  induction dts with
  | nil => rfl
  | cons p rest ih =>
    rw [applyDtypes_cons]
    have h1 : updateCol h p.1 (coerceCell p.2) rows = rows :=
      updateCol_noop h p.1 _ rows
        (fun j hj r hr => hfix p (List.mem_cons_self p rest) j hj r hr)
    rw [h1]
    exact ih (fun p' hp' => hfix p' (List.mem_cons_of_mem p hp'))

theorem updateCol_preserves_fixed (dts : List (ColName × TargetType))
    (h : List ColName) (c : ColName) (ty : TargetType) (rows : List Row)
    (hfix : FixedCols dts h rows) :
    FixedCols dts h (updateCol h c (coerceCell ty) rows) := by
  intro p hp j hj r' hr'
  obtain ⟨r, hr, _, hcell⟩ :=
    updateCol_cellwise h c (coerceCell ty) rows rfl r' hr'
  rcases hcell j with hsame | ⟨_, hco⟩
  · rw [hsame]
    exact hfix p hp j hj r hr
  · rw [hco]
    exact coerceCell_fixed_after p.2 ty _ (hfix p hp j hj r hr)

theorem applyDtypes_preserves_fixed (dts0 dts : List (ColName × TargetType))
    (h : List ColName) (rows : List Row) (hfix : FixedCols dts0 h rows) :
    FixedCols dts0 h (applyDtypes dts h rows) := by
  induction dts generalizing rows with
  | nil => exact hfix
  | cons p rest ih =>
    rw [applyDtypes_cons]
    exact ih _ (updateCol_preserves_fixed dts0 h p.1 p.2 rows hfix)

theorem updateCol_establishes_fixed (h : List ColName) (c : ColName)
    (ty : TargetType) (rows : List Row) :
    FixedCols [(c, ty)] h (updateCol h c (coerceCell ty) rows) := by
  intro p hp j hj r' hr'
  have hpc : p = (c, ty) := by
    cases List.mem_singleton.mp hp
    rfl
  subst hpc
  obtain ⟨r, hr, _, hcell⟩ :=
    updateCol_cellwise h c (coerceCell ty) rows rfl r' hr'
  rcases hcell j with hsame | ⟨_, hco⟩
  · -- the update column is exactly column j, so the cellwise lemma gives the
    -- coerced branch; the unchanged branch also closes via idempotence once
    -- we know the cell is a coercion image, which only arises when the
    -- column indices differ; but here the cell just equals the original,
    -- so we must coerce it: this branch can only occur if the update was a
    -- no-op on this row, i.e. the cell was set to itself.  Fall back to the
    -- direct computation.
    rw [hsame]
    -- r'.getD j = r.getD j, but r' = updateRowAt j g r, so
    -- r.getD j = g (r.getD j) as well; recover that equation.
    -- Recompute from the member proof instead.
    unfold updateCol at hr'
    rw [hj] at hr'
    obtain ⟨r0, hr0, heq0⟩ := List.mem_map.mp hr'
    have hgd : r'.getD j Cell.null = coerceCell ty (r0.getD j Cell.null) := by
      rw [← heq0]
      exact getD_updateRowAt_same j _ r0 rfl
    rw [← hsame, hgd]
    exact coerceCell_idem ty _
  · rw [hco]
    exact coerceCell_idem ty _

theorem applyDtypes_establishes (dts : List (ColName × TargetType))
    (h : List ColName) (rows : List Row) :
    FixedCols dts h (applyDtypes dts h rows) := by
  induction dts generalizing rows with
  | nil => intro p hp; cases hp
  | cons p rest ih =>
    rw [applyDtypes_cons]
    intro p' hp' j hj r hr
    rcases List.mem_cons.mp hp' with hh | hh
    · subst hh
      have hsingle : FixedCols [p'] h (applyDtypes rest h
          (updateCol h p'.1 (coerceCell p'.2) rows)) :=
        applyDtypes_preserves_fixed [p'] rest h _
          (by
            have := updateCol_establishes_fixed h p'.1 p'.2 rows
            intro q hq
            cases List.mem_singleton.mp hq
            exact this (p'.1, p'.2) (List.mem_singleton.mpr rfl))
      exact hsingle p' (List.mem_singleton.mpr rfl) j hj r hr
    · exact ih _ p' hh j hj r hr

/-! ## Subset stability of the row invariants -/

theorem FixedCols_subset (dts : List (ColName × TargetType)) (h : List ColName)
    (rows1 rows2 : List Row) (hsub : ∀ r ∈ rows2, r ∈ rows1)
    (hfix : FixedCols dts h rows1) : FixedCols dts h rows2 :=
  fun p hp j hj r hr => hfix p hp j hj r (hsub r hr)

theorem DropClean_subset (cols : List ColName) (h : List ColName)
    (rows1 rows2 : List Row) (hsub : ∀ r ∈ rows2, r ∈ rows1)
    (hd : DropClean cols h rows1) : DropClean cols h rows2 :=
  fun r hr c hc => hd r (hsub r hr) c hc

theorem FillSkip_subset (d : FillDirective) (j : Nat) (rows1 rows2 : List Row)
    (hsub : ∀ r ∈ rows2, r ∈ rows1) (hs : FillSkip d j rows1) :
    FillSkip d j rows2 := by
  rcases hs with hs | ⟨hst, hval, hs⟩ | ⟨hst, hs⟩ | hs
  · exact Or.inl (fun r hr => hs r (hsub r hr))
  · exact Or.inr (Or.inl ⟨hst, hval, fun r hr => hs r (hsub r hr)⟩)
  · exact Or.inr (Or.inr (Or.inl ⟨hst, fun r hr => hs r (hsub r hr)⟩))
  · exact Or.inr (Or.inr (Or.inr hs))

theorem FillCleanCol_subset (h : List ColName) (d : FillDirective)
    (rows1 rows2 : List Row) (hsub : ∀ r ∈ rows2, r ∈ rows1)
    (hc : FillCleanCol h d rows1) : FillCleanCol h d rows2 :=
  fun j hj => FillSkip_subset d j rows1 rows2 hsub (hc j hj)

theorem LowerFixedCols_subset (cols : List ColName) (h : List ColName)
    (rows1 rows2 : List Row) (hsub : ∀ r ∈ rows2, r ∈ rows1)
    (hl : LowerFixedCols cols h rows1) : LowerFixedCols cols h rows2 :=
  fun c hc j hj r hr => hl c hc j hj r (hsub r hr)

theorem StripFixedCols_subset (cols : List ColName) (h : List ColName)
    (rows1 rows2 : List Row) (hsub : ∀ r ∈ rows2, r ∈ rows1)
    (hl : StripFixedCols cols h rows1) : StripFixedCols cols h rows2 :=
  fun c hc j hj r hr => hl c hc j hj r (hsub r hr)

/-! ## handle_missing lemmas -/

theorem fillOne_none_idx (h : List ColName) (d : FillDirective)
    (rows : List Row) (hidx : colIdx h d.column = Option.none) :
    fillOne h d rows = (rows, []) := by
  unfold fillOne
  rw [hidx]

theorem all_missing_numericVals_nil (colVals : List Cell)
    (hall : ∀ c ∈ colVals, isMissingCell c = true) :
    numericVals colVals = [] := by
  rw [numericVals_eq_nil]
  intro c hc q hq
  have hm := hall c hc
  rw [hq] at hm
  have hq2 : isMissingCell (Cell.num q) = false := rfl
  rw [hq2] at hm
  cases hm

theorem fillValue_eq_none_mean (d : FillDirective) (colVals : List Cell)
    (hs : d.strategy = Strategy.mean) (hval : d.value = Option.none)
    (hall : ∀ c ∈ colVals, isMissingCell c = true) :
    fillValue d colVals = Option.none := by
  have hnum := all_missing_numericVals_nil colVals hall
  have hfil : colVals.filter (fun c => !(isMissingCell c)) = [] :=
    (filter_nonMissing_nil colVals).mpr hall
  unfold fillValue
  rw [hs]
  dsimp only
  rw [hnum]
  dsimp only
  rw [hval]
  dsimp only
  rw [hfil]
  rfl

theorem fillValue_eq_none_median (d : FillDirective) (colVals : List Cell)
    (hs : d.strategy = Strategy.median) (hval : d.value = Option.none)
    (hall : ∀ c ∈ colVals, isMissingCell c = true) :
    fillValue d colVals = Option.none := by
  have hnum := all_missing_numericVals_nil colVals hall
  have hfil : colVals.filter (fun c => !(isMissingCell c)) = [] :=
    (filter_nonMissing_nil colVals).mpr hall
  have hsorted : insSort qLeB (numericVals colVals) = [] := by
    rw [hnum]
    rfl
  unfold fillValue
  rw [hs]
  dsimp only
  rw [hsorted]
  dsimp only
  rw [hval]
  dsimp only
  rw [hfil]
  rfl

theorem fillValue_eq_none_constant (d : FillDirective) (colVals : List Cell)
    (hs : d.strategy = Strategy.constant) (hval : d.value = Option.none) :
    fillValue d colVals = Option.none := by
  unfold fillValue
  rw [hs]
  exact hval

theorem fillValue_eq_none_mode (d : FillDirective) (colVals : List Cell)
    (hs : d.strategy = Strategy.mode)
    (h : colVals.filter (fun c => !(isMissingCell c)) = []) :
    fillValue d colVals = Option.none := by
  unfold fillValue
  rw [hs, h]
  rfl

theorem fillOne_skip (h : List ColName) (d : FillDirective) (rows : List Row)
    (hclean : FillCleanCol h d rows) : fillOne h d rows = (rows, []) := by
  cases hidx : colIdx h d.column with
  | none => exact fillOne_none_idx h d rows hidx
  | some j =>
    rcases hclean j hidx with hnl | ⟨hst, hval, hsn⟩ | ⟨hst, hsn⟩ | ⟨hst, hval⟩
    · -- no reachable missing cell: either the fill value is skipped, or the
      -- fill rewrites every (unreachable or absent) missing cell to itself
      unfold fillOne
      rw [hidx]
      dsimp only
      cases hfv : fillValue d (rows.map (fun r => r.getD j Cell.null)) with
      | none => rfl
      | some v =>
        have hrows : rows.map
            (fun r => if isMissingCell (r.getD j Cell.null) then r.set j v else r) =
            rows := by
          have hcongr : ∀ r ∈ rows,
              (if isMissingCell (r.getD j Cell.null) then r.set j v else r) = r := by
            intro r hr
            by_cases hm : isMissingCell (r.getD j Cell.null) = true
            · have hge : r.length ≤ j := by
                by_contra hlt
                rw [hnl r hr (Nat.lt_of_not_le hlt)] at hm
                cases hm
              rw [if_pos hm]
              exact cb_set_oob r j v hge
            · rw [if_neg hm]
          have h2 := List.map_congr_left hcongr
          rw [h2]
          exact List.map_id rows
        dsimp only
        rw [hrows]
        rw [if_pos rfl]
    · -- mean/median on an all-missing column with no constant to fall back
      -- to: the directive is skipped
      unfold fillOne
      rw [hidx]
      dsimp only
      have hallm : ∀ c ∈ rows.map (fun r => r.getD j Cell.null),
          isMissingCell c = true := by
        intro c hc
        obtain ⟨r, hr, hre⟩ := List.mem_map.mp hc
        rw [← hre]
        exact hsn r hr
      rcases hst with hst | hst
      · rw [fillValue_eq_none_mean d _ hst hval hallm]
      · rw [fillValue_eq_none_median d _ hst hval hallm]
    · -- mode with no non-missing candidate: the directive is skipped
      unfold fillOne
      rw [hidx]
      dsimp only
      have hnil : (rows.map (fun r => r.getD j Cell.null)).filter
          (fun c => !(isMissingCell c)) = [] := by
        rw [filter_nonMissing_nil]
        intro c hc
        obtain ⟨r, hr, hre⟩ := List.mem_map.mp hc
        rw [← hre]
        exact hsn r hr
      rw [fillValue_eq_none_mode d _ hst hnil]
    · -- constant with no given value: the directive is skipped
      unfold fillOne
      rw [hidx]
      dsimp only
      rw [fillValue_eq_none_constant d _ hst hval]

theorem applyFills_cons (h : List ColName) (d : FillDirective)
    (ds : List FillDirective) (rows : List Row) :
    applyFills h (d :: ds) rows =
      ((applyFills h ds (fillOne h d rows).1).1,
       (fillOne h d rows).2 ++ (applyFills h ds (fillOne h d rows).1).2) := rfl

theorem applyFills_skip (h : List ColName) (ds : List FillDirective)
    (rows : List Row) (hclean : ∀ d ∈ ds, FillCleanCol h d rows) :
    applyFills h ds rows = (rows, []) := by
  induction ds with
  | nil => rfl
  | cons d rest ih =>
    rw [applyFills_cons, fillOne_skip h d rows (hclean d (List.mem_cons_self d rest))]
    dsimp only
    rw [ih (fun d' hd' => hclean d' (List.mem_cons_of_mem d hd'))]
    rfl

theorem handleMissing_noop (cfg : MissingCfg) (h : List ColName)
    (rows : List Row) (hdrop : DropClean cfg.dropIfMissing h rows)
    (hfills : ∀ d ∈ cfg.fill, FillCleanCol h d rows) :
    handleMissing cfg h rows = (rows, []) := by
  have hkept : rows.filter
      (fun r => !(cfg.dropIfMissing.any (rowMissingAt h r))) = rows := by
    rw [List.filter_eq_self]
    intro r hr
    have hany : cfg.dropIfMissing.any (rowMissingAt h r) = false := by
      rw [List.any_eq_false]
      intro c hc
      rw [hdrop r hr c hc]
      intro hcc
      cases hcc
    rw [hany]
    rfl
  unfold handleMissing
  rw [hkept]
  dsimp only
  rw [if_pos rfl, applyFills_skip h cfg.fill rows hfills]
  rfl

theorem fillOne_fst_some (h : List ColName) (d : FillDirective) (rows : List Row)
    (j : Nat) (v : Cell) (hidx : colIdx h d.column = some j)
    (hfv : fillValue d (rows.map (fun r => r.getD j Cell.null)) = some v) :
    (fillOne h d rows).1 =
      rows.map (fun r =>
        if isMissingCell (r.getD j Cell.null) then r.set j v else r) := by
  unfold fillOne
  rw [hidx]
  dsimp only
  rw [hfv]

theorem fillOne_fst_none_fv (h : List ColName) (d : FillDirective)
    (rows : List Row) (j : Nat) (hidx : colIdx h d.column = some j)
    (hfv : fillValue d (rows.map (fun r => r.getD j Cell.null)) = Option.none) :
    (fillOne h d rows).1 = rows := by
  unfold fillOne
  rw [hidx]
  dsimp only
  rw [hfv]

theorem fillOne_noLongMissing (h : List ColName) (d : FillDirective)
    (rows : List Row) (j : Nat) (v : Cell)
    (hidx : colIdx h d.column = some j)
    (hfv : fillValue d (rows.map (fun r => r.getD j Cell.null)) = some v)
    (hvm : isMissingCell v = false) :
    NoLongMissingAt j (fillOne h d rows).1 := by
  rw [fillOne_fst_some h d rows j v hidx hfv]
  intro r' hr' hlt
  obtain ⟨r, hr, heq⟩ := List.mem_map.mp hr'
  by_cases hm : isMissingCell (r.getD j Cell.null) = true
  · rw [if_pos hm] at heq
    rw [← heq] at hlt ⊢
    rw [List.length_set] at hlt
    rw [cb_getD_set_eq r j v Cell.null hlt]
    exact hvm
  · rw [if_neg hm] at heq
    rw [← heq]
    cases hb : isMissingCell (r.getD j Cell.null) with
    | true => exact absurd hb hm
    | false => rfl

theorem fillOne_establishes (h : List ColName) (d : FillDirective)
    (rows : List Row) (j : Nat) (hval : d.value = Option.none)
    (hidx : colIdx h d.column = some j) :
    FillSkip d j (fillOne h d rows).1 := by
  cases hfv : fillValue d (rows.map (fun r => r.getD j Cell.null)) with
  | none =>
    rw [fillOne_fst_none_fv h d rows j hidx hfv]
    cases hs : d.strategy with
    | mean =>
      refine Or.inr (Or.inl ⟨Or.inl hs, hval, ?_⟩)
      have hnil := fv_none_mean d _ hs hval hfv
      rw [filter_nonMissing_nil] at hnil
      intro r hr
      exact hnil _ (List.mem_map.mpr ⟨r, hr, rfl⟩)
    | median =>
      refine Or.inr (Or.inl ⟨Or.inr hs, hval, ?_⟩)
      have hnil := fv_none_median d _ hs hval hfv
      rw [filter_nonMissing_nil] at hnil
      intro r hr
      exact hnil _ (List.mem_map.mpr ⟨r, hr, rfl⟩)
    | mode =>
      refine Or.inr (Or.inr (Or.inl ⟨hs, ?_⟩))
      have hnil := fv_none_mode d _ hs hfv
      rw [filter_nonMissing_nil] at hnil
      intro r hr
      exact hnil _ (List.mem_map.mpr ⟨r, hr, rfl⟩)
    | constant => exact Or.inr (Or.inr (Or.inr ⟨hs, hval⟩))
  | some v =>
    exact Or.inl (fillOne_noLongMissing h d rows j v hidx hfv
      (fillValue_nonMissing d _ v hval hfv))

theorem fillOne_cellwise (h : List ColName) (d : FillDirective) (rows : List Row)
    (hval : d.value = Option.none) :
    (fillOne h d rows).1 = rows ∨
    ∃ j v, colIdx h d.column = some j ∧ isMissingCell v = false ∧
      ((∃ q : ℚ, v = Cell.num q) ∨ ∃ r0 ∈ rows, r0.getD j Cell.null = v) ∧
      ∀ r' ∈ (fillOne h d rows).1, ∃ r ∈ rows, r'.length = r.length ∧
        (∀ j', j' ≠ j → r'.getD j' Cell.null = r.getD j' Cell.null) ∧
        (r'.getD j Cell.null = r.getD j Cell.null ∨
          r'.getD j Cell.null = v) := by
  cases hidx : colIdx h d.column with
  | none =>
    left
    rw [fillOne_none_idx h d rows hidx]
  | some j =>
    cases hfv : fillValue d (rows.map (fun r => r.getD j Cell.null)) with
    | none =>
      left
      exact fillOne_fst_none_fv h d rows j hidx hfv
    | some v =>
      right
      refine ⟨j, v, rfl, fillValue_nonMissing d _ v hval hfv, ?_, ?_⟩
      · rcases fillValue_cases d _ v hval hfv with hq | hmem
        · exact Or.inl hq
        · obtain ⟨r0, hr0, he⟩ := List.mem_map.mp hmem
          exact Or.inr ⟨r0, hr0, he⟩
      · rw [fillOne_fst_some h d rows j v hidx hfv]
        intro r' hr'
        obtain ⟨r, hr, heq⟩ := List.mem_map.mp hr'
        by_cases hm : isMissingCell (r.getD j Cell.null) = true
        · rw [if_pos hm] at heq
          refine ⟨r, hr, ?_, ?_, ?_⟩
          · rw [← heq]; exact List.length_set r j v
          · intro j' hj'; rw [← heq]; exact cb_getD_set_ne r j j' v Cell.null hj'
          · by_cases hlt : j < r.length
            · right; rw [← heq]; exact cb_getD_set_eq r j v Cell.null hlt
            · left; rw [← heq, cb_set_oob r j v (Nat.le_of_not_lt hlt)]
        · rw [if_neg hm] at heq
          exact ⟨r, hr, by rw [← heq], fun j' _ => by rw [← heq],
            Or.inl (by rw [← heq])⟩

theorem fillOne_preserves_fixed (dts : List (ColName × TargetType))
    (h : List ColName) (d : FillDirective) (rows : List Row)
    (hval : d.value = Option.none) (hfix : FixedCols dts h rows) :
    FixedCols dts h (fillOne h d rows).1 := by
  rcases fillOne_cellwise h d rows hval with heq | ⟨j, v, hidx, hvm, hvsrc, hcells⟩
  · rw [heq]; exact hfix
  · intro p hp jp hjp r' hr'
    obtain ⟨r, hr, hlen, hne, hat⟩ := hcells r' hr'
    by_cases hj : jp = j
    · subst hj
      rcases hat with hsame | hv
      · rw [hsame]; exact hfix p hp jp hjp r hr
      · rw [hv]
        rcases hvsrc with ⟨q, hq⟩ | ⟨r0, hr0, he0⟩
        · rw [hq]; rfl
        · rw [← he0]; exact hfix p hp jp hjp r0 hr0
    · rw [hne jp hj]; exact hfix p hp jp hjp r hr

theorem fillOne_preserves_dropClean (cols : List ColName) (h : List ColName)
    (d : FillDirective) (rows : List Row)
    (hval : d.value = Option.none) (hd : DropClean cols h rows) :
    DropClean cols h (fillOne h d rows).1 := by
  rcases fillOne_cellwise h d rows hval with heq | ⟨j, v, hidx, hvm, _, hcells⟩
  · rw [heq]; exact hd
  · intro r' hr' c hc
    obtain ⟨r, hr, _, hne, hat⟩ := hcells r' hr'
    have hold := hd r hr c hc
    unfold rowMissingAt at hold ⊢
    cases hidx2 : colIdx h c with
    | none => rfl
    | some j2 =>
      rw [hidx2] at hold
      dsimp only at hold ⊢
      by_cases hj : j2 = j
      · subst hj
        rcases hat with hsame | hv
        · rw [hsame]; exact hold
        · rw [hv]; exact hvm
      · rw [hne j2 hj]; exact hold

theorem fillOne_preserves_fillCleanCol (h : List ColName) (d d' : FillDirective)
    (rows : List Row) (hval : d.value = Option.none)
    (hc : FillCleanCol h d' rows) :
    FillCleanCol h d' (fillOne h d rows).1 := by
  cases hidx : colIdx h d.column with
  | none =>
    rw [fillOne_none_idx h d rows hidx]
    exact hc
  | some j =>
    cases hfv : fillValue d (rows.map (fun r => r.getD j Cell.null)) with
    | none =>
      rw [fillOne_fst_none_fv h d rows j hidx hfv]
      exact hc
    | some v =>
      intro j2 hidx2
      by_cases hj : j2 = j
      · -- the fill targets this very column: it leaves no reachable missing
        -- cell behind, which skips any directive on the column
        subst hj
        exact Or.inl (fillOne_noLongMissing h d rows j2 v hidx hfv
          (fillValue_nonMissing d _ v hval hfv))
      · -- the fill targets another column: the cells at this column are
        -- untouched, so the original skip reason survives
        rcases fillOne_cellwise h d rows hval with heq | ⟨j0, v0, hidx0, _, _, hcells⟩
        · rw [heq]
          exact hc j2 hidx2
        · have hj0 : j0 = j := by
            rw [hidx] at hidx0
            exact (Option.some_injective _ hidx0).symm
          subst hj0
          rcases hc j2 hidx2 with hnl | ⟨hstx, hv2, hs⟩ | ⟨hstx, hs⟩ | hcst
          · left
            intro r' hr' hlt
            obtain ⟨r, hr, hlen, hne, _⟩ := hcells r' hr'
            rw [hlen] at hlt
            rw [hne j2 hj]
            exact hnl r hr hlt
          · refine Or.inr (Or.inl ⟨hstx, hv2, ?_⟩)
            intro r' hr'
            obtain ⟨r, hr, _, hne, _⟩ := hcells r' hr'
            rw [hne j2 hj]
            exact hs r hr
          · refine Or.inr (Or.inr (Or.inl ⟨hstx, ?_⟩))
            intro r' hr'
            obtain ⟨r, hr, _, hne, _⟩ := hcells r' hr'
            rw [hne j2 hj]
            exact hs r hr
          · exact Or.inr (Or.inr (Or.inr hcst))

theorem applyFills_preserves_fixed (dts : List (ColName × TargetType))
    (h : List ColName) (ds : List FillDirective) (rows : List Row)
    (hv : ∀ d ∈ ds, d.value = Option.none)
    (hfix : FixedCols dts h rows) :
    FixedCols dts h (applyFills h ds rows).1 := by
  induction ds generalizing rows with
  | nil => exact hfix
  | cons d rest ih =>
    rw [applyFills_cons]
    exact ih _ (fun d' hd' => hv d' (List.mem_cons_of_mem d hd'))
      (fillOne_preserves_fixed dts h d rows
        (hv d (List.mem_cons_self d rest)) hfix)

theorem applyFills_preserves_dropClean (cols : List ColName) (h : List ColName)
    (ds : List FillDirective) (rows : List Row)
    (hv : ∀ d ∈ ds, d.value = Option.none)
    (hd : DropClean cols h rows) :
    DropClean cols h (applyFills h ds rows).1 := by
  induction ds generalizing rows with
  | nil => exact hd
  | cons d rest ih =>
    rw [applyFills_cons]
    exact ih _ (fun d' hd' => hv d' (List.mem_cons_of_mem d hd'))
      (fillOne_preserves_dropClean cols h d rows
        (hv d (List.mem_cons_self d rest)) hd)

theorem applyFills_preserves_fillCleanCol (h : List ColName) (d' : FillDirective)
    (ds : List FillDirective) (rows : List Row)
    (hv : ∀ d ∈ ds, d.value = Option.none)
    (hc : FillCleanCol h d' rows) :
    FillCleanCol h d' (applyFills h ds rows).1 := by
  induction ds generalizing rows with
  | nil => exact hc
  | cons d rest ih =>
    rw [applyFills_cons]
    exact ih _ (fun d2 hd2 => hv d2 (List.mem_cons_of_mem d hd2))
      (fillOne_preserves_fillCleanCol h d d' rows
        (hv d (List.mem_cons_self d rest)) hc)

theorem applyFills_establishes (h : List ColName) (ds : List FillDirective)
    (rows : List Row)
    (hv : ∀ d ∈ ds, d.value = Option.none) :
    ∀ d ∈ ds, FillCleanCol h d (applyFills h ds rows).1 := by
  induction ds generalizing rows with
  | nil => intro d hd; cases hd
  | cons d0 rest ih =>
    intro d hd
    rw [applyFills_cons]
    dsimp only
    rcases List.mem_cons.mp hd with hh | hh
    · subst hh
      have hest : FillCleanCol h d (fillOne h d rows).1 := fun j hidx =>
        fillOne_establishes h d rows j (hv d (List.mem_cons_self d rest)) hidx
      exact applyFills_preserves_fillCleanCol h d rest _
        (fun d2 hd2 => hv d2 (List.mem_cons_of_mem d hd2)) hest
    · exact ih _ (fun d2 hd2 => hv d2 (List.mem_cons_of_mem d0 hd2)) d hh

theorem handleMissing_fst (cfg : MissingCfg) (h : List ColName) (rows : List Row) :
    (handleMissing cfg h rows).1 =
      (applyFills h cfg.fill
        (rows.filter (fun r => !(cfg.dropIfMissing.any (rowMissingAt h r))))).1 :=
  rfl

theorem handleMissing_establishes (cfg : MissingCfg) (h : List ColName)
    (rows : List Row)
    (hv : ∀ d ∈ cfg.fill, d.value = Option.none) :
    DropClean cfg.dropIfMissing h (handleMissing cfg h rows).1 ∧
    (∀ d ∈ cfg.fill, FillCleanCol h d (handleMissing cfg h rows).1) ∧
    (∀ dts, FixedCols dts h rows → FixedCols dts h (handleMissing cfg h rows).1) := by
  have hkeptClean : DropClean cfg.dropIfMissing h
      (rows.filter (fun r => !(cfg.dropIfMissing.any (rowMissingAt h r)))) := by
    intro r hr c hc
    have hpred := List.of_mem_filter hr
    have hany : cfg.dropIfMissing.any (rowMissingAt h r) = false := by
      cases hb : cfg.dropIfMissing.any (rowMissingAt h r) with
      | false => rfl
      | true => rw [hb] at hpred; cases hpred
    rw [List.any_eq_false] at hany
    cases hb : rowMissingAt h r c with
    | false => rfl
    | true => exact absurd hb (hany c hc)
  rw [handleMissing_fst]
  refine ⟨?_, ?_, ?_⟩
  · exact applyFills_preserves_dropClean cfg.dropIfMissing h cfg.fill _ hv hkeptClean
  · exact applyFills_establishes h cfg.fill _ hv
  · intro dts hfix
    exact applyFills_preserves_fixed dts h cfg.fill _ hv
      (FixedCols_subset dts h rows _
        (fun r hr => List.mem_of_mem_filter hr) hfix)

/-! ## text_clean lemmas -/

theorem cellLower_idem (x : Cell) : cellLower (cellLower x) = cellLower x := by
  cases x with
  | null => rfl
  | num q => rfl
  | str s =>
    show Cell.str ((s.map charToLower).map charToLower) = Cell.str (s.map charToLower)
    rw [List.map_map]
    exact congrArg Cell.str
      (List.map_congr_left (fun c _ => charToLower_idem c))

theorem cellStrip_idem (x : Cell) : cellStrip (cellStrip x) = cellStrip x := by
  cases x with
  | null => rfl
  | num q => rfl
  | str s =>
    show Cell.str (trimChars (trimChars s)) = Cell.str (trimChars s)
    rw [trimChars_idem]

theorem cellLower_fixed_strip (x : Cell) (hx : cellLower x = x) :
    cellLower (cellStrip x) = cellStrip x := by
  cases x with
  | null => rfl
  | num q => rfl
  | str s =>
    have hmap : s.map charToLower = s := by
      have := hx
      unfold cellLower at this
      exact Cell.str.inj this
    show Cell.str ((trimChars s).map charToLower) = Cell.str (trimChars s)
    rw [← trimChars_map_lower, hmap]

theorem textOpFold_cons (h : List ColName) (g : Cell → Cell) (msg : String)
    (c : ColName) (cs : List ColName) (rows : List Row) :
    textOpFold h g msg (c :: cs) rows =
      ((textOpFold h g msg cs (updateCol h c g rows)).1,
       (if updateCol h c g rows = rows then [] else [msg ++ c]) ++
         (textOpFold h g msg cs (updateCol h c g rows)).2) := rfl

theorem textOpFold_noop (h : List ColName) (g : Cell → Cell) (msg : String)
    (cols : List ColName) (rows : List Row)
    (hfix : ∀ c ∈ cols, ∀ j, colIdx h c = some j →
      ∀ r ∈ rows, g (r.getD j Cell.null) = r.getD j Cell.null) :
    textOpFold h g msg cols rows = (rows, []) := by
  induction cols with
  | nil => rfl
  | cons c cs ih =>
    rw [textOpFold_cons]
    have hup : updateCol h c g rows = rows :=
      updateCol_noop h c g rows
        (fun j hj r hr => hfix c (List.mem_cons_self c cs) j hj r hr)
    rw [hup, if_pos rfl,
      ih (fun c' hc' => hfix c' (List.mem_cons_of_mem c hc'))]
    rfl

theorem updateCol_establishes_gfix (h : List ColName) (c : ColName)
    (g : Cell → Cell) (rows : List Row) (hgnull : g Cell.null = Cell.null)
    (hidem : ∀ x, g (g x) = g x) :
    ∀ j, colIdx h c = some j → ∀ r' ∈ updateCol h c g rows,
      g (r'.getD j Cell.null) = r'.getD j Cell.null := by
  intro j hidx r' hr'
  unfold updateCol at hr'
  rw [hidx] at hr'
  obtain ⟨r, hr, heq⟩ := List.mem_map.mp hr'
  have hgd : r'.getD j Cell.null = g (r.getD j Cell.null) := by
    rw [← heq]
    exact getD_updateRowAt_same j g r hgnull
  rw [hgd]
  exact hidem _

theorem updateCol_preserves_gfix (h : List ColName) (c c2 : ColName)
    (g g2 : Cell → Cell) (rows : List Row) (hgnull : g Cell.null = Cell.null)
    (hpres : ∀ x, g2 x = x → g2 (g x) = g x)
    (hold : ∀ j, colIdx h c2 = some j →
      ∀ r ∈ rows, g2 (r.getD j Cell.null) = r.getD j Cell.null) :
    ∀ j, colIdx h c2 = some j → ∀ r' ∈ updateCol h c g rows,
      g2 (r'.getD j Cell.null) = r'.getD j Cell.null := by
  intro j hidx r' hr'
  obtain ⟨r, hr, _, hcell⟩ := updateCol_cellwise h c g rows hgnull r' hr'
  rcases hcell j with hsame | ⟨_, hco⟩
  · rw [hsame]
    exact hold j hidx r hr
  · rw [hco]
    exact hpres _ (hold j hidx r hr)

theorem textOpFold_preserves_gfix (h : List ColName) (c2 : ColName)
    (g g2 : Cell → Cell) (msg : String) (cols : List ColName) (rows : List Row)
    (hgnull : g Cell.null = Cell.null)
    (hpres : ∀ x, g2 x = x → g2 (g x) = g x)
    (hold : ∀ j, colIdx h c2 = some j →
      ∀ r ∈ rows, g2 (r.getD j Cell.null) = r.getD j Cell.null) :
    ∀ j, colIdx h c2 = some j → ∀ r' ∈ (textOpFold h g msg cols rows).1,
      g2 (r'.getD j Cell.null) = r'.getD j Cell.null := by
  induction cols generalizing rows with
  | nil => exact hold
  | cons c cs ih =>
    rw [textOpFold_cons]
    exact ih _ (updateCol_preserves_gfix h c c2 g g2 rows hgnull hpres hold)

theorem textOpFold_establishes_gfix (h : List ColName) (g : Cell → Cell)
    (msg : String) (cols : List ColName) (rows : List Row)
    (hgnull : g Cell.null = Cell.null) (hidem : ∀ x, g (g x) = g x) :
    ∀ c ∈ cols, ∀ j, colIdx h c = some j →
      ∀ r' ∈ (textOpFold h g msg cols rows).1,
        g (r'.getD j Cell.null) = r'.getD j Cell.null := by
  induction cols generalizing rows with
  | nil => intro c hc; cases hc
  | cons c0 cs ih =>
    intro c hc
    rw [textOpFold_cons]
    rcases List.mem_cons.mp hc with hh | hh
    · subst hh
      exact textOpFold_preserves_gfix h c g g msg cs _ hgnull
        (fun x _ => hidem x)
        (updateCol_establishes_gfix h c g rows hgnull hidem)
    · exact ih _ c hh

theorem updateCol_preserves_fixedCols (dts : List (ColName × TargetType))
    (h : List ColName) (c : ColName) (g : Cell → Cell) (rows : List Row)
    (hgnull : g Cell.null = Cell.null)
    (hgfix : ∀ ty x, coerceCell ty x = x → coerceCell ty (g x) = g x)
    (hfix : FixedCols dts h rows) : FixedCols dts h (updateCol h c g rows) := by
  intro p hp j hj r' hr'
  obtain ⟨r, hr, _, hcell⟩ := updateCol_cellwise h c g rows hgnull r' hr'
  rcases hcell j with hsame | ⟨_, hco⟩
  · rw [hsame]; exact hfix p hp j hj r hr
  · rw [hco]; exact hgfix p.2 _ (hfix p hp j hj r hr)

theorem updateCol_preserves_dropClean (cols : List ColName) (h : List ColName)
    (c : ColName) (g : Cell → Cell) (rows : List Row)
    (hgnull : g Cell.null = Cell.null)
    (hgmiss : ∀ x, isMissingCell (g x) = isMissingCell x)
    (hd : DropClean cols h rows) : DropClean cols h (updateCol h c g rows) := by
  intro r' hr' c2 hc2
  obtain ⟨r, hr, _, hcell⟩ := updateCol_cellwise h c g rows hgnull r' hr'
  have hold := hd r hr c2 hc2
  unfold rowMissingAt at hold ⊢
  cases hidx2 : colIdx h c2 with
  | none => rfl
  | some j2 =>
    rw [hidx2] at hold
    dsimp only at hold ⊢
    rcases hcell j2 with hsame | ⟨_, hco⟩
    · rw [hsame]; exact hold
    · rw [hco, hgmiss]; exact hold

theorem updateCol_preserves_fillCleanCol (h : List ColName) (d : FillDirective)
    (c : ColName) (g : Cell → Cell) (rows : List Row)
    (hgnull : g Cell.null = Cell.null)
    (hgmiss : ∀ x, isMissingCell (g x) = isMissingCell x)
    (hc : FillCleanCol h d rows) : FillCleanCol h d (updateCol h c g rows) := by
  intro j hidx
  rcases hc j hidx with hnl | ⟨hstx, hv2, hs⟩ | ⟨hstx, hs⟩ | hcst
  · left
    intro r' hr' hlt
    obtain ⟨r, hr, hlen, hcell⟩ := updateCol_cellwise h c g rows hgnull r' hr'
    rw [hlen] at hlt
    rcases hcell j with hsame | ⟨_, hco⟩
    · rw [hsame]; exact hnl r hr hlt
    · rw [hco, hgmiss]; exact hnl r hr hlt
  · refine Or.inr (Or.inl ⟨hstx, hv2, ?_⟩)
    intro r' hr'
    obtain ⟨r, hr, _, hcell⟩ := updateCol_cellwise h c g rows hgnull r' hr'
    rcases hcell j with hsame | ⟨_, hco⟩
    · rw [hsame]; exact hs r hr
    · rw [hco, hgmiss]; exact hs r hr
  · refine Or.inr (Or.inr (Or.inl ⟨hstx, ?_⟩))
    intro r' hr'
    obtain ⟨r, hr, _, hcell⟩ := updateCol_cellwise h c g rows hgnull r' hr'
    rcases hcell j with hsame | ⟨_, hco⟩
    · rw [hsame]; exact hs r hr
    · rw [hco, hgmiss]; exact hs r hr
  · exact Or.inr (Or.inr (Or.inr hcst))

theorem textOpFold_preserves_fixedCols (dts : List (ColName × TargetType))
    (h : List ColName) (g : Cell → Cell) (msg : String) (cols : List ColName)
    (rows : List Row) (hgnull : g Cell.null = Cell.null)
    (hgfix : ∀ ty x, coerceCell ty x = x → coerceCell ty (g x) = g x)
    (hfix : FixedCols dts h rows) :
    FixedCols dts h (textOpFold h g msg cols rows).1 := by
  induction cols generalizing rows with
  | nil => exact hfix
  | cons c cs ih =>
    rw [textOpFold_cons]
    exact ih _ (updateCol_preserves_fixedCols dts h c g rows hgnull hgfix hfix)

theorem textOpFold_preserves_dropClean (cols0 : List ColName)
    (h : List ColName) (g : Cell → Cell) (msg : String) (cols : List ColName)
    (rows : List Row) (hgnull : g Cell.null = Cell.null)
    (hgmiss : ∀ x, isMissingCell (g x) = isMissingCell x)
    (hd : DropClean cols0 h rows) :
    DropClean cols0 h (textOpFold h g msg cols rows).1 := by
  induction cols generalizing rows with
  | nil => exact hd
  | cons c cs ih =>
    rw [textOpFold_cons]
    exact ih _ (updateCol_preserves_dropClean cols0 h c g rows hgnull hgmiss hd)

theorem textOpFold_preserves_fillCleanCol (d : FillDirective)
    (h : List ColName) (g : Cell → Cell) (msg : String) (cols : List ColName)
    (rows : List Row) (hgnull : g Cell.null = Cell.null)
    (hgmiss : ∀ x, isMissingCell (g x) = isMissingCell x)
    (hc : FillCleanCol h d rows) :
    FillCleanCol h d (textOpFold h g msg cols rows).1 := by
  induction cols generalizing rows with
  | nil => exact hc
  | cons c cs ih =>
    rw [textOpFold_cons]
    exact ih _ (updateCol_preserves_fillCleanCol h d c g rows hgnull hgmiss hc)

theorem textClean_fst_none (cfg : TextCleanCfg) (h : List ColName)
    (rows : List Row) (hrm : cfg.removeChars = Option.none) :
    textClean cfg h rows =
      ((textOpFold h cellStrip "Stripped whitespace in column " cfg.strip
          (textOpFold h cellLower "Lowercased text in column " cfg.lower rows).1).1,
       (textOpFold h cellLower "Lowercased text in column " cfg.lower rows).2 ++
         (textOpFold h cellStrip "Stripped whitespace in column " cfg.strip
           (textOpFold h cellLower "Lowercased text in column " cfg.lower rows).1).2) := by
  unfold textClean
  rw [hrm]

theorem textClean_noop (cfg : TextCleanCfg) (h : List ColName) (rows : List Row)
    (hrm : cfg.removeChars = Option.none)
    (hl : LowerFixedCols cfg.lower h rows)
    (hs : StripFixedCols cfg.strip h rows) :
    textClean cfg h rows = (rows, []) := by
  rw [textClean_fst_none cfg h rows hrm]
  rw [textOpFold_noop h cellLower _ cfg.lower rows hl]
  dsimp only
  rw [textOpFold_noop h cellStrip _ cfg.strip rows hs]
  rfl

theorem textClean_establishes (cfg : TextCleanCfg) (h : List ColName)
    (rows : List Row) (hrm : cfg.removeChars = Option.none) :
    LowerFixedCols cfg.lower h (textClean cfg h rows).1 ∧
    StripFixedCols cfg.strip h (textClean cfg h rows).1 ∧
    (∀ dts, FixedCols dts h rows → FixedCols dts h (textClean cfg h rows).1) ∧
    (∀ cols, DropClean cols h rows → DropClean cols h (textClean cfg h rows).1) ∧
    (∀ d, FillCleanCol h d rows → FillCleanCol h d (textClean cfg h rows).1) := by
  rw [textClean_fst_none cfg h rows hrm]
  dsimp only
  refine ⟨?_, ?_, ?_, ?_, ?_⟩
  · -- lower-fixedness established by the lower fold, preserved by strip
    intro c hc j hj
    exact textOpFold_preserves_gfix h c cellStrip cellLower _ cfg.strip _
      rfl cellLower_fixed_strip
      (fun j2 hj2 => textOpFold_establishes_gfix h cellLower _ cfg.lower rows
        rfl cellLower_idem c hc j2 hj2) j hj
  · intro c hc j hj
    exact textOpFold_establishes_gfix h cellStrip _ cfg.strip _
      rfl cellStrip_idem c hc j hj
  · intro dts hfix
    exact textOpFold_preserves_fixedCols dts h cellStrip _ cfg.strip _
      rfl coerceCell_fixed_strip
      (textOpFold_preserves_fixedCols dts h cellLower _ cfg.lower rows
        rfl coerceCell_fixed_lower hfix)
  · intro cols hd
    exact textOpFold_preserves_dropClean cols h cellStrip _ cfg.strip _
      rfl isMissing_cellStrip
      (textOpFold_preserves_dropClean cols h cellLower _ cfg.lower rows
        rfl isMissing_cellLower hd)
  · intro d hc
    exact textOpFold_preserves_fillCleanCol d h cellStrip _ cfg.strip _
      rfl isMissing_cellStrip
      (textOpFold_preserves_fillCleanCol d h cellLower _ cfg.lower rows
        rfl isMissing_cellLower hc)

/-! ## drop_duplicates lemmas -/

theorem ddFirst_cons (key : Row → List Cell) (seen : List (List Cell))
    (r : Row) (rest : List Row) :
    ddFirst key seen (r :: rest) =
      if key r ∈ seen then ddFirst key seen rest
      else r :: ddFirst key (key r :: seen) rest := rfl

theorem ddFirst_subset (key : Row → List Cell) :
    ∀ (rows : List Row) (seen : List (List Cell)) (r : Row),
      r ∈ ddFirst key seen rows → r ∈ rows := by
  intro rows
  induction rows with
  | nil => intro seen r hr; cases hr
  | cons r0 rest ih =>
    intro seen r hr
    rw [ddFirst_cons] at hr
    by_cases hmem : key r0 ∈ seen
    · rw [if_pos hmem] at hr
      exact List.mem_cons_of_mem r0 (ih seen r hr)
    · rw [if_neg hmem] at hr
      rcases List.mem_cons.mp hr with hh | hh
      · rw [hh]; exact List.mem_cons_self r0 rest
      · exact List.mem_cons_of_mem r0 (ih _ r hh)

theorem ddFirst_pairwise (key : Row → List Cell) :
    ∀ (rows : List Row) (seen : List (List Cell)),
      List.Pairwise (fun r1 r2 => key r1 ≠ key r2) (ddFirst key seen rows) ∧
      ∀ r ∈ ddFirst key seen rows, key r ∉ seen := by
  intro rows
  induction rows with
  | nil => intro seen; exact ⟨List.Pairwise.nil, fun r hr => absurd hr (List.not_mem_nil r)⟩
  | cons r0 rest ih =>
    intro seen
    rw [ddFirst_cons]
    by_cases hmem : key r0 ∈ seen
    · rw [if_pos hmem]
      exact ih seen
    · rw [if_neg hmem]
      obtain ⟨ihp, ihs⟩ := ih (key r0 :: seen)
      refine ⟨List.pairwise_cons.mpr ⟨?_, ihp⟩, ?_⟩
      · intro r' hr' heq
        exact ihs r' hr' (by rw [← heq]; exact List.mem_cons_self _ _)
      · intro r hr
        rcases List.mem_cons.mp hr with hh | hh
        · rw [hh]; exact hmem
        · intro hcon
          exact ihs r hh (List.mem_cons_of_mem _ hcon)

theorem ddFirst_eq_self (key : Row → List Cell) :
    ∀ (rows : List Row) (seen : List (List Cell)),
      (∀ r ∈ rows, key r ∉ seen) →
      List.Pairwise (fun r1 r2 => key r1 ≠ key r2) rows →
      ddFirst key seen rows = rows := by
  intro rows
  induction rows with
  | nil => intro seen _ _; rfl
  | cons r0 rest ih =>
    intro seen hseen hpw
    rw [ddFirst_cons, if_neg (hseen r0 (List.mem_cons_self r0 rest))]
    obtain ⟨hhead, htail⟩ := List.pairwise_cons.mp hpw
    rw [ih (key r0 :: seen) ?_ htail]
    intro r hr
    intro hcon
    rcases List.mem_cons.mp hcon with hh | hh
    · exact hhead r hr hh.symm
    · exact hseen r (List.mem_cons_of_mem r0 hr) hh

theorem ddLast_cons (key : Row → List Cell) (r : Row) (rest : List Row) :
    ddLast key (r :: rest) =
      if rest.any (fun r2 => decide (key r2 = key r)) then ddLast key rest
      else r :: ddLast key rest := rfl

theorem ddLast_subset (key : Row → List Cell) :
    ∀ (rows : List Row) (r : Row), r ∈ ddLast key rows → r ∈ rows := by
  intro rows
  induction rows with
  | nil => intro r hr; cases hr
  | cons r0 rest ih =>
    intro r hr
    rw [ddLast_cons] at hr
    by_cases hany : rest.any (fun r2 => decide (key r2 = key r0)) = true
    · rw [if_pos hany] at hr
      exact List.mem_cons_of_mem r0 (ih r hr)
    · rw [if_neg hany] at hr
      rcases List.mem_cons.mp hr with hh | hh
      · rw [hh]; exact List.mem_cons_self r0 rest
      · exact List.mem_cons_of_mem r0 (ih r hh)

theorem ddLast_pairwise (key : Row → List Cell) :
    ∀ (rows : List Row),
      List.Pairwise (fun r1 r2 => key r1 ≠ key r2) (ddLast key rows) := by
  intro rows
  induction rows with
  | nil => exact List.Pairwise.nil
  | cons r0 rest ih =>
    rw [ddLast_cons]
    by_cases hany : rest.any (fun r2 => decide (key r2 = key r0)) = true
    · rw [if_pos hany]
      exact ih
    · rw [if_neg hany]
      refine List.pairwise_cons.mpr ⟨?_, ih⟩
      intro r' hr' heq
      have hr'mem := ddLast_subset key rest r' hr'
      have hany2 : rest.any (fun r2 => decide (key r2 = key r0)) = false := by
        cases hb : rest.any (fun r2 => decide (key r2 = key r0)) with
        | false => rfl
        | true => exact absurd hb hany
      rw [List.any_eq_false] at hany2
      exact hany2 r' hr'mem (by rw [decide_eq_true_eq]; exact heq.symm)

theorem ddLast_eq_self (key : Row → List Cell) :
    ∀ (rows : List Row),
      List.Pairwise (fun r1 r2 => key r1 ≠ key r2) rows →
      ddLast key rows = rows := by
  intro rows
  induction rows with
  | nil => intro _; rfl
  | cons r0 rest ih =>
    intro hpw
    obtain ⟨hhead, htail⟩ := List.pairwise_cons.mp hpw
    have hany : rest.any (fun r2 => decide (key r2 = key r0)) = false := by
      rw [List.any_eq_false]
      intro r2 hr2
      rw [decide_eq_true_eq]
      exact fun heq => hhead r2 hr2 heq.symm
    rw [ddLast_cons, hany]
    rw [if_neg (by intro hcon; cases hcon), ih htail]

theorem ddNone_subset (key : Row → List Cell) (rows : List Row) (r : Row)
    (hr : r ∈ ddNone key rows) : r ∈ rows :=
  List.mem_of_mem_filter hr

theorem countP_eq_one_of_pairwise (key : Row → List Cell) :
    ∀ (rows : List Row) (r : Row),
      List.Pairwise (fun r1 r2 => key r1 ≠ key r2) rows → r ∈ rows →
      rows.countP (fun r2 => decide (key r2 = key r)) = 1 := by
  intro rows
  induction rows with
  | nil => intro r _ hr; cases hr
  | cons r0 rest ih =>
    intro r hpw hr
    obtain ⟨hhead, htail⟩ := List.pairwise_cons.mp hpw
    rw [List.countP_cons]
    rcases List.mem_cons.mp hr with hh | hh
    · subst hh
      have hzero : rest.countP (fun r2 => decide (key r2 = key r)) = 0 := by
        rw [List.countP_eq_zero]
        intro r2 hr2
        rw [decide_eq_true_eq]
        exact fun heq => hhead r2 hr2 heq.symm
      rw [hzero]
      simp
    · have hne : key r0 ≠ key r := hhead r hh
      have hfalse : (decide (key r0 = key r)) = false := by
        rw [decide_eq_false_iff_not]
        exact hne
      rw [hfalse, ih r htail hh]
      simp

theorem ddNone_eq_self (key : Row → List Cell) (rows : List Row)
    (hpw : List.Pairwise (fun r1 r2 => key r1 ≠ key r2) rows) :
    ddNone key rows = rows := by
  unfold ddNone
  rw [List.filter_eq_self]
  intro r hr
  rw [decide_eq_true_eq]
  exact countP_eq_one_of_pairwise key rows r hpw hr

theorem ddNone_pairwise_aux (key : Row → List Cell) (rows : List Row) :
    ∀ (l : List Row), l.Sublist rows →
      List.Pairwise (fun r1 r2 => key r1 ≠ key r2)
        (l.filter (fun r =>
          decide (rows.countP (fun r2 => decide (key r2 = key r)) = 1))) := by
  intro l
  induction l with
  | nil => intro _; exact List.Pairwise.nil
  | cons r0 rest ih =>
    intro hsub
    have hsubrest : rest.Sublist rows :=
      List.Sublist.trans (List.sublist_cons_self r0 rest) hsub
    by_cases hp : (decide (rows.countP (fun r2 => decide (key r2 = key r0)) = 1)) = true
    · rw [List.filter_cons, if_pos hp]
      refine List.pairwise_cons.mpr ⟨?_, ih hsubrest⟩
      intro r' hr' heq
      have hr'rest : r' ∈ rest := List.mem_of_mem_filter hr'
      have hcnt : rows.countP (fun r2 => decide (key r2 = key r0)) = 1 := by
        rw [decide_eq_true_eq] at hp
        exact hp
      have hle : (r0 :: rest).countP (fun r2 => decide (key r2 = key r0)) ≤
          rows.countP (fun r2 => decide (key r2 = key r0)) :=
        List.Sublist.countP_le _ hsub
      have hpos : 0 < rest.countP (fun r2 => decide (key r2 = key r0)) := by
        rw [List.countP_pos_iff]
        exact ⟨r', hr'rest, by rw [decide_eq_true_eq]; exact heq.symm⟩
      rw [List.countP_cons] at hle
      have hr0 : (decide (key r0 = key r0)) = true := by
        rw [decide_eq_true_eq]
      rw [hr0, if_pos rfl] at hle
      omega
    · rw [List.filter_cons, if_neg hp]
      exact ih hsubrest

theorem ddNone_pairwise (key : Row → List Cell) (rows : List Row) :
    List.Pairwise (fun r1 r2 => key r1 ≠ key r2) (ddNone key rows) :=
  ddNone_pairwise_aux key rows rows (List.Sublist.refl rows)

theorem dropDuplicates_fst (cfg : DupCfg) (h : List ColName) (rows : List Row) :
    (dropDuplicates cfg h rows).1 =
      match cfg.keep with
      | Keep.first => ddFirst (rowKey cfg h) [] rows
      | Keep.last => ddLast (rowKey cfg h) rows
      | Keep.none => ddNone (rowKey cfg h) rows := rfl

theorem dropDuplicates_noop (cfg : DupCfg) (h : List ColName) (rows : List Row)
    (hpw : KeyDistinct cfg h rows) :
    dropDuplicates cfg h rows = (rows, []) := by
  unfold dropDuplicates
  have hrows : (match cfg.keep with
      | Keep.first => ddFirst (rowKey cfg h) [] rows
      | Keep.last => ddLast (rowKey cfg h) rows
      | Keep.none => ddNone (rowKey cfg h) rows) = rows := by
    cases cfg.keep with
    | first =>
      exact ddFirst_eq_self (rowKey cfg h) rows []
        (fun r _ hc => absurd hc (List.not_mem_nil _)) hpw
    | last => exact ddLast_eq_self (rowKey cfg h) rows hpw
    | none => exact ddNone_eq_self (rowKey cfg h) rows hpw
  dsimp only
  rw [hrows, if_pos rfl]

theorem dropDuplicates_establishes (cfg : DupCfg) (h : List ColName)
    (rows : List Row) : KeyDistinct cfg h (dropDuplicates cfg h rows).1 := by
  rw [dropDuplicates_fst]
  unfold KeyDistinct
  cases cfg.keep with
  | first => exact (ddFirst_pairwise (rowKey cfg h) rows []).1
  | last => exact ddLast_pairwise (rowKey cfg h) rows
  | none => exact ddNone_pairwise (rowKey cfg h) rows

theorem dropDuplicates_subset (cfg : DupCfg) (h : List ColName) (rows : List Row) :
    ∀ r ∈ (dropDuplicates cfg h rows).1, r ∈ rows := by
  rw [dropDuplicates_fst]
  cases cfg.keep with
  | first => exact fun r hr => ddFirst_subset (rowKey cfg h) rows [] r hr
  | last => exact fun r hr => ddLast_subset (rowKey cfg h) rows r hr
  | none => exact fun r hr => ddNone_subset (rowKey cfg h) rows r hr

/-! ## handle_outliers lemmas -/

theorem handleOutliers_fst (cfg : OutlierCfg) (h : List ColName) (rows : List Row) :
    (handleOutliers cfg h rows).1 =
      rows.filter
        (fun r => !(cfg.columns.any (fun c => outlierAt h rows cfg.zThreshold c r))) :=
  rfl

theorem handleOutliers_noop (cfg : OutlierCfg) (h : List ColName)
    (rows : List Row) (hcols : cfg.columns = []) :
    handleOutliers cfg h rows = (rows, []) := by
  unfold handleOutliers
  rw [hcols]
  have hf : rows.filter
      (fun r => !(List.any [] (fun c => outlierAt h rows cfg.zThreshold c r))) = rows :=
    List.filter_eq_self.mpr (fun r _ => rfl)
  dsimp only
  rw [hf, if_pos rfl]

theorem handleOutliers_subset (cfg : OutlierCfg) (h : List ColName)
    (rows : List Row) : ∀ r ∈ (handleOutliers cfg h rows).1, r ∈ rows := by
  rw [handleOutliers_fst]
  exact fun r hr => List.mem_of_mem_filter hr

/-! ## Ordering and sort lemmas -/

theorem natCmp_swap (a b : Nat) : natCmp a b = (natCmp b a).swap := by
  unfold natCmp
  split_ifs <;> first | rfl | omega

theorem qCmp_swap (a b : ℚ) : qCmp a b = (qCmp b a).swap := by
  unfold qCmp
  split_ifs <;> first | rfl | linarith

theorem listCmp_cons_cons {α : Type} (cmp : α → α → Ordering) (a b : α)
    (as bs : List α) :
    listCmp cmp (a :: as) (b :: bs) =
      match cmp a b with
      | Ordering.eq => listCmp cmp as bs
      | o => o := rfl

theorem listCmp_swap {α : Type} (cmp : α → α → Ordering)
    (hswap : ∀ a b, cmp a b = (cmp b a).swap) :
    ∀ l1 l2, listCmp cmp l1 l2 = (listCmp cmp l2 l1).swap := by
  intro l1
  induction l1 with
  | nil => intro l2; cases l2 <;> rfl
  | cons a as ih =>
    intro l2
    cases l2 with
    | nil => rfl
    | cons b bs =>
      rw [listCmp_cons_cons, listCmp_cons_cons, hswap a b]
      cases hc : cmp b a with
      | eq => exact ih bs
      | lt => rfl
      | gt => rfl

theorem cellCmp_swap (x y : Cell) : cellCmp x y = (cellCmp y x).swap := by
  cases x <;> cases y
  case null.null => rfl
  case num.num => exact qCmp_swap _ _
  case str.str =>
    exact listCmp_swap _ (fun (a b : Char) => natCmp_swap a.toNat b.toNat) _ _
  all_goals exact natCmp_swap _ _

theorem rowCmp_cons (h : List ColName) (k : ColName × Bool)
    (rest : List (ColName × Bool)) (r1 r2 : Row) :
    rowCmp h (k :: rest) r1 r2 =
      match (if k.2 then cellCmp (cellAt h r1 k.1) (cellAt h r2 k.1)
             else (cellCmp (cellAt h r1 k.1) (cellAt h r2 k.1)).swap) with
      | Ordering.eq => rowCmp h rest r1 r2
      | o => o := rfl

theorem rowCmp_swap (h : List ColName) (keys : List (ColName × Bool))
    (r1 r2 : Row) : rowCmp h keys r1 r2 = (rowCmp h keys r2 r1).swap := by
  induction keys with
  | nil => rfl
  | cons k rest ih =>
    rw [rowCmp_cons, rowCmp_cons]
    have hc := cellCmp_swap (cellAt h r1 k.1) (cellAt h r2 k.1)
    by_cases hk : k.2 = true
    · rw [if_pos hk, if_pos hk, hc]
      cases hcc : cellCmp (cellAt h r2 k.1) (cellAt h r1 k.1) with
      | eq => exact ih
      | lt => rfl
      | gt => rfl
    · rw [if_neg hk, if_neg hk, hc, Ordering.swap_swap]
      cases hcc : cellCmp (cellAt h r2 k.1) (cellAt h r1 k.1) with
      | eq => exact ih
      | lt => rfl
      | gt => rfl

theorem rowLe_false_iff (h : List ColName) (keys : List (ColName × Bool))
    (r1 r2 : Row) :
    rowLe h keys r1 r2 = false ↔ rowCmp h keys r1 r2 = Ordering.gt := by
  unfold rowLe
  cases hc : rowCmp h keys r1 r2 <;> simp

theorem rowLe_total (h : List ColName) (keys : List (ColName × Bool))
    (r1 r2 : Row) (hf : rowLe h keys r1 r2 = false) :
    rowLe h keys r2 r1 = true := by
  have hgt := (rowLe_false_iff h keys r1 r2).mp hf
  have hs := rowCmp_swap h keys r1 r2
  rw [hgt] at hs
  unfold rowLe
  cases hc2 : rowCmp h keys r2 r1
  · rfl
  · rfl
  · rw [hc2] at hs
    exact absurd hs (by decide)

theorem insertLe_cons {α : Type} (le : α → α → Bool) (x y : α) (ys : List α) :
    insertLe le x (y :: ys) =
      if le x y then x :: y :: ys else y :: insertLe le x ys := rfl

theorem insSort_cons {α : Type} (le : α → α → Bool) (x : α) (l : List α) :
    insSort le (x :: l) = insertLe le x (insSort le l) := rfl

theorem insertLe_perm {α : Type} (le : α → α → Bool) (x : α) :
    ∀ (l : List α), List.Perm (insertLe le x l) (x :: l) := by
  intro l
  induction l with
  | nil => exact List.Perm.refl [x]
  | cons y ys ih =>
    rw [insertLe_cons]
    by_cases hxy : le x y = true
    · rw [if_pos hxy]
    · rw [if_neg hxy]
      exact List.Perm.trans (List.Perm.cons y ih) (List.Perm.swap x y ys)

theorem insSort_perm {α : Type} (le : α → α → Bool) :
    ∀ (l : List α), List.Perm (insSort le l) l := by
  intro l
  induction l with
  | nil => exact List.Perm.refl []
  | cons x xs ih =>
    rw [insSort_cons]
    exact List.Perm.trans (insertLe_perm le x (insSort le xs)) (List.Perm.cons x ih)

theorem insertLe_chain {α : Type} (le : α → α → Bool)
    (total : ∀ a b, le a b = false → le b a = true) (x : α) :
    ∀ (l : List α), List.Chain' (fun a b => le a b = true) l →
      List.Chain' (fun a b => le a b = true) (insertLe le x l) := by
  intro l
  induction l with
  | nil => intro _; exact List.chain'_singleton x
  | cons y ys ih =>
    intro hch
    rw [insertLe_cons]
    by_cases hxy : le x y = true
    · rw [if_pos hxy]
      exact List.chain'_cons.mpr ⟨hxy, hch⟩
    · rw [if_neg hxy]
      have hyx : le y x = true := total x y (by
        cases hb : le x y with
        | false => rfl
        | true => exact absurd hb hxy)
      cases ys with
      | nil =>
        exact List.chain'_cons.mpr ⟨hyx, List.chain'_singleton x⟩
      | cons z zs =>
        have hch2 := List.chain'_cons.mp hch
        have hins := ih hch2.2
        rw [insertLe_cons] at hins ⊢
        by_cases hxz : le x z = true
        · rw [if_pos hxz] at hins ⊢
          exact List.chain'_cons.mpr ⟨hyx, hins⟩
        · rw [if_neg hxz] at hins ⊢
          exact List.chain'_cons.mpr ⟨hch2.1, hins⟩

theorem insSort_chain {α : Type} (le : α → α → Bool)
    (total : ∀ a b, le a b = false → le b a = true) :
    ∀ (l : List α), List.Chain' (fun a b => le a b = true) (insSort le l) := by
  intro l
  induction l with
  | nil => exact List.chain'_nil
  | cons x xs ih =>
    rw [insSort_cons]
    exact insertLe_chain le total x (insSort le xs) ih

theorem insSort_eq_self {α : Type} (le : α → α → Bool) :
    ∀ (l : List α), List.Chain' (fun a b => le a b = true) l →
      insSort le l = l := by
  intro l
  induction l with
  | nil => intro _; rfl
  | cons x xs ih =>
    intro hch
    rw [insSort_cons, ih (List.Chain'.tail hch)]
    cases xs with
    | nil => rfl
    | cons y ys =>
      rw [insertLe_cons, if_pos (List.chain'_cons.mp hch).1]

/-! ## sort stage lemmas -/

theorem sortStage_fst_sorted (cfg : SortCfg) (h : List ColName)
    (rows : List Row) (hby : cfg.sortBy ≠ []) :
    (sortStage cfg h rows).1 =
      insSort (rowLe h (zipDirections cfg.sortBy cfg.ascending)) rows := by
  unfold sortStage
  rw [if_neg hby]

theorem sortStage_noop (cfg : SortCfg) (h : List ColName) (rows : List Row)
    (hsorted : SortedRows cfg h rows) : sortStage cfg h rows = (rows, []) := by
  unfold sortStage
  rcases hsorted with hby | hch
  · rw [if_pos hby]
  · by_cases hby : cfg.sortBy = []
    · rw [if_pos hby]
    · rw [if_neg hby]
      dsimp only
      rw [insSort_eq_self _ rows hch, if_pos rfl]

theorem sortStage_establishes (cfg : SortCfg) (h : List ColName)
    (rows : List Row) : SortedRows cfg h (sortStage cfg h rows).1 := by
  by_cases hby : cfg.sortBy = []
  · exact Or.inl hby
  · right
    rw [sortStage_fst_sorted cfg h rows hby]
    exact insSort_chain _ (rowLe_total h _) rows

theorem sortStage_perm (cfg : SortCfg) (h : List ColName) (rows : List Row) :
    List.Perm (sortStage cfg h rows).1 rows := by
  by_cases hby : cfg.sortBy = []
  · unfold sortStage
    rw [if_pos hby]
  · rw [sortStage_fst_sorted cfg h rows hby]
    exact insSort_perm _ rows

/-! ## Pipeline assembly: establishing and using the invariants -/

theorem cb_take_take_drop {A : Type} (l : List A) (n m : Nat) :
    l.take n ++ (l.drop n).take m ++ l.drop (n + m) = l := by
  have h1 : l.drop (n + m) = (l.drop n).drop m := (List.drop_drop m n l).symm
  rw [h1, List.append_assoc, List.take_append_drop, List.take_append_drop]

theorem splitStage_fst (osc : Option SplitCfg) (rows : List Row) :
    (splitStage osc rows).1 = rows := by
  cases osc with
  | none => rfl
  | some s =>
    unfold splitStage
    dsimp only
    exact cb_take_take_drop rows _ _

theorem KeyDistinct_perm (cfg : DupCfg) (h : List ColName)
    (rows1 rows2 : List Row) (hp : List.Perm rows2 rows1)
    (hk : KeyDistinct cfg h rows1) : KeyDistinct cfg h rows2 := by
  have hsym : Symmetric (fun r1 r2 : Row => rowKey cfg h r1 ≠ rowKey cfg h r2) := by
    intro a b hab hba
    exact hab hba.symm
  exact (List.Perm.pairwise_iff (fun hxy => hsym hxy) hp).mpr hk

theorem runStages_fst (C : CleaningConfig) (h : List ColName) (rows : List Row) :
    (runStages C h rows).1 =
      (splitStage C.split
        (sortStage C.sort h
          (handleOutliers C.outliers h
            (dropDuplicates C.duplicates h
              (textClean C.textClean h
                (handleMissing C.missing h
                  (applyDtypes C.dtypes h rows)).1).1).1).1).1).1 := rfl

theorem runStages_establishes (C : CleaningConfig) (h : List ColName)
    (rows : List Row)
    (hout : C.outliers.columns = [])
    (hrm : C.textClean.removeChars = Option.none)
    (hv : ∀ d ∈ C.missing.fill, d.value = Option.none) :
    PipelineInv C h (runStages C h rows).1 := by
  rw [runStages_fst, splitStage_fst]
  set s1 := applyDtypes C.dtypes h rows with hs1
  set s2 := (handleMissing C.missing h s1).1 with hs2
  set s3 := (textClean C.textClean h s2).1 with hs3
  set s4 := (dropDuplicates C.duplicates h s3).1 with hs4
  set s5 := (handleOutliers C.outliers h s4).1 with hs5
  set s6 := (sortStage C.sort h s5).1 with hs6
  have hfix1 : FixedCols C.dtypes h s1 := by
    rw [hs1]
    exact applyDtypes_establishes C.dtypes h rows
  have h2 := handleMissing_establishes C.missing h s1 hv
  rw [← hs2] at h2
  obtain ⟨hdrop2, hfill2, hfixp2⟩ := h2
  have hfix2 : FixedCols C.dtypes h s2 := hfixp2 C.dtypes hfix1
  have h3 := textClean_establishes C.textClean h s2 hrm
  rw [← hs3] at h3
  obtain ⟨hlow3, hstrip3, hfixp3, hdropp3, hfillp3⟩ := h3
  have hfix3 := hfixp3 C.dtypes hfix2
  have hdrop3 := hdropp3 C.missing.dropIfMissing hdrop2
  have hfill3 : ∀ d ∈ C.missing.fill, FillCleanCol h d s3 :=
    fun d hd => hfillp3 d (hfill2 d hd)
  have hsub4 : ∀ r ∈ s4, r ∈ s3 := by
    rw [hs4]
    exact dropDuplicates_subset C.duplicates h s3
  have hkey4 : KeyDistinct C.duplicates h s4 := by
    rw [hs4]
    exact dropDuplicates_establishes C.duplicates h s3
  have hfix4 := FixedCols_subset C.dtypes h s3 s4 hsub4 hfix3
  have hdrop4 := DropClean_subset C.missing.dropIfMissing h s3 s4 hsub4 hdrop3
  have hfill4 : ∀ d ∈ C.missing.fill, FillCleanCol h d s4 :=
    fun d hd => FillCleanCol_subset h d s3 s4 hsub4 (hfill3 d hd)
  have hlow4 := LowerFixedCols_subset C.textClean.lower h s3 s4 hsub4 hlow3
  have hstrip4 := StripFixedCols_subset C.textClean.strip h s3 s4 hsub4 hstrip3
  have hs5eq : s5 = s4 := by
    rw [hs5, handleOutliers_noop C.outliers h s4 hout]
  have hperm6 : List.Perm s6 s5 := by
    rw [hs6]
    exact sortStage_perm C.sort h s5
  have hsub6 : ∀ r ∈ s6, r ∈ s4 := by
    intro r hr
    have hm := hperm6.mem_iff.mp hr
    rw [hs5eq] at hm
    exact hm
  have hsort6 : SortedRows C.sort h s6 := by
    rw [hs6]
    exact sortStage_establishes C.sort h s5
  have hkey6 : KeyDistinct C.duplicates h s6 := by
    have hk5 : KeyDistinct C.duplicates h s5 := by
      rw [hs5eq]
      exact hkey4
    exact KeyDistinct_perm C.duplicates h s5 s6 hperm6 hk5
  exact ⟨FixedCols_subset C.dtypes h s4 s6 hsub6 hfix4,
    DropClean_subset C.missing.dropIfMissing h s4 s6 hsub6 hdrop4,
    fun d hd => FillCleanCol_subset h d s4 s6 hsub6 (hfill4 d hd),
    LowerFixedCols_subset C.textClean.lower h s4 s6 hsub6 hlow4,
    StripFixedCols_subset C.textClean.strip h s4 s6 hsub6 hstrip4,
    hkey6, hsort6⟩

theorem runStages_noop (C : CleaningConfig) (h : List ColName) (rows : List Row)
    (hinv : PipelineInv C h rows)
    (hout : C.outliers.columns = [])
    (hsplit : C.split = Option.none)
    (hrm : C.textClean.removeChars = Option.none) :
    runStages C h rows = (rows, []) := by
  unfold PipelineInv at hinv
  obtain ⟨hfix, hdrop, hfill, hlow, hstrip, hkey, hsort⟩ := hinv
  have h1 : applyDtypes C.dtypes h rows = rows :=
    applyDtypes_noop C.dtypes h rows hfix
  have h2 : handleMissing C.missing h rows = (rows, []) :=
    handleMissing_noop C.missing h rows hdrop hfill
  have h3 : textClean C.textClean h rows = (rows, []) :=
    textClean_noop C.textClean h rows hrm hlow hstrip
  have h4 : dropDuplicates C.duplicates h rows = (rows, []) :=
    dropDuplicates_noop C.duplicates h rows hkey
  have h5 : handleOutliers C.outliers h rows = (rows, []) :=
    handleOutliers_noop C.outliers h rows hout
  have h6 : sortStage C.sort h rows = (rows, []) :=
    sortStage_noop C.sort h rows hsort
  have h7 : splitStage C.split rows = (rows, []) := by
    rw [hsplit]
    rfl
  unfold runStages
  dsimp only
  rw [h1, h2]
  dsimp only
  rw [h3]
  dsimp only
  rw [h4]
  dsimp only
  rw [h5]
  dsimp only
  rw [h6]
  dsimp only
  rw [h7]
  rfl

theorem runPipeline_cleaned (C : CleaningConfig) (t : Table) :
    (runPipeline C t).cleaned =
      { header := t.header, rows := (runStages C t.header t.rows).1 } := rfl

theorem runPipeline_changes (C : CleaningConfig) (t : Table) :
    (runPipeline C t).changes = (runStages C t.header t.rows).2 := rfl

theorem runPipeline_after (C : CleaningConfig) (t : Table) :
    (runPipeline C t).after = assess (runPipeline C t).cleaned := rfl

set_option maxRecDepth 100000 in
/-- C8 counterexample: outlier removal is not idempotent.  On the table
with column x = [8, 9, 10, 11, 12, 20, 1000] and a config that only removes
z-score outliers at threshold 2, the first run removes the row 1000, which
shrinks the mean and standard deviation enough that a second run on the
already-cleaned output removes the row 20 as well, producing a further
ChangeLogEntry. -/
theorem c8_counterexample :
    (runPipeline c8cfg (runPipeline c8cfg c8tbl).cleaned).changes ≠ [] := by
  with_unfolding_all decide

/-- C8 (amended): the pipeline is idempotent on already-cleaned tables for
every config with no outlier columns, no split, no remove_chars_pattern,
and no explicitly supplied fill constant (every fill directive's value
field is null, so the constant strategy and the non-numeric fallback of
mean/median resolve to no-op and mode respectively): a second run with the
same config on the cleaned output of a first run produces zero additional
ChangeLogEntry items and leaves after.score unchanged.  (With outlier
removal enabled the property fails, see the counterexample.) -/
theorem c8_idempotent_amended (C : CleaningConfig) (t : Table)
    (hout : C.outliers.columns = [])
    (hsplit : C.split = Option.none)
    (hrm : C.textClean.removeChars = Option.none)
    (hv : ∀ d ∈ C.missing.fill, d.value = Option.none) :
    (runPipeline C (runPipeline C t).cleaned).changes = [] ∧
    (runPipeline C (runPipeline C t).cleaned).after.score =
      (runPipeline C t).after.score := by
  have hinv : PipelineInv C t.header (runStages C t.header t.rows).1 :=
    runStages_establishes C t.header t.rows hout hrm hv
  have hnoop : runStages C t.header (runStages C t.header t.rows).1 =
      ((runStages C t.header t.rows).1, []) :=
    runStages_noop C t.header _ hinv hout hsplit hrm
  have hc1 := runPipeline_cleaned C t
  have hhdr1 : (runPipeline C t).cleaned.header = t.header := by
    rw [hc1]
  have hrows1 : (runPipeline C t).cleaned.rows = (runStages C t.header t.rows).1 := by
    rw [hc1]
  have h2changes : (runPipeline C (runPipeline C t).cleaned).changes = [] := by
    rw [runPipeline_changes, hhdr1, hrows1, hnoop]
  have h2cleaned : (runPipeline C (runPipeline C t).cleaned).cleaned =
      (runPipeline C t).cleaned := by
    rw [runPipeline_cleaned, hhdr1, hrows1, hnoop, hc1]
  have hafter : (runPipeline C (runPipeline C t).cleaned).after =
      (runPipeline C t).after := by
    rw [runPipeline_after C ((runPipeline C t).cleaned), h2cleaned,
      runPipeline_after C t]
  exact ⟨h2changes, by rw [hafter]⟩

set_option maxRecDepth 100000 in
/-- C8 witness: the amended idempotence theorem applied to a concrete table
and a concrete config that type-coerces, median-fills, lowercases, strips,
deduplicates and sorts (but removes no outliers, splits nothing and
supplies no fill constant). -/
theorem c8_idempotent_amended_witness :
    (c8cfgW.outliers.columns = [] ∧ c8cfgW.split = Option.none ∧
     c8cfgW.textClean.removeChars = Option.none ∧
     (∀ d ∈ c8cfgW.missing.fill, d.value = Option.none)) ∧
    ((runPipeline c8cfgW (runPipeline c8cfgW c8tblW).cleaned).changes = [] ∧
     (runPipeline c8cfgW (runPipeline c8cfgW c8tblW).cleaned).after.score =
       (runPipeline c8cfgW c8tblW).after.score) :=
  ⟨⟨by with_unfolding_all decide, by with_unfolding_all decide,
    by with_unfolding_all decide, by with_unfolding_all decide⟩,
   c8_idempotent_amended c8cfgW c8tblW (by with_unfolding_all decide)
     (by with_unfolding_all decide) (by with_unfolding_all decide)
     (by with_unfolding_all decide)⟩

end CleanBot
